import Mathlib

/-!
Qt Creator: the Qbs default property provider.

A shallow embedding of `src/plugins/qbsprojectmanager/defaultpropertyprovider.cpp`:
the static helpers `extractToolchainPrefix`, `targetOSList`, `toolchainList` and the
method `DefaultPropertyProvider::properties`, followed by theorems about them.

Strings (`QString`, `QLatin1String`, `Core::Id`) are Lean strings, `QStringList` is
`List String`, and a `QVariantMap` is the finite partial function it denotes.
-/

namespace QbsProjectManager

/-! ## Host types that the code only reads -/

/-- Modelled from the spec: `enum ProjectExplorer::Abi::Architecture` is declared in
`projectexplorer/abi.h`, which is not among the sources. The enumerators are the ones
`properties()` names, together with Itanium (named in its comment) and one further
family that reaches the `default:` branch of its switch. -/
inductive Architecture
  | ArmArchitecture
  | X86Architecture
  | ItaniumArchitecture
  | MipsArchitecture
  | PowerPCArchitecture
  | ShArchitecture
  | UnknownArchitecture
  deriving DecidableEq, Repr

/-- Modelled from the spec: `enum ProjectExplorer::Abi::OS` (OS family) is declared in
`projectexplorer/abi.h`, which is not among the sources. The five families are the
cases of the switch in `targetOSList`; `UnknownOS` reaches its `default:` branch. -/
inductive OS
  | BsdOS
  | LinuxOS
  | MacOS
  | UnixOS
  | WindowsOS
  | UnknownOS
  deriving DecidableEq, Repr

/-- Modelled from the spec: `enum ProjectExplorer::Abi::OSFlavor` is declared in
`projectexplorer/abi.h`, which is not among the sources. It holds every flavor the code
names, a generic flavor per family, and the other MSVC flavors next to the 2013 one. -/
inductive OSFlavor
  | FreeBsdFlavor
  | NetBsdFlavor
  | OpenBsdFlavor
  | GenericLinuxFlavor
  | AndroidLinuxFlavor
  | GenericMacFlavor
  | GenericUnixFlavor
  | SolarisUnixFlavor
  | WindowsMsvc2005Flavor
  | WindowsMsvc2008Flavor
  | WindowsMsvc2010Flavor
  | WindowsMsvc2012Flavor
  | WindowsMsvc2013Flavor
  | WindowsMSysFlavor
  | WindowsCEFlavor
  | UnknownFlavor
  deriving DecidableEq, Repr

/-- The value read through `ProjectExplorer::Abi`: `architecture()`, `os()`,
`osFlavor()` and `wordWidth()`. -/
structure Abi where
  architecture : Architecture
  os : OS
  osFlavor : OSFlavor
  wordWidth : Nat
  deriving DecidableEq, Repr

/-- The part of `ProjectExplorer::ToolChain` that is read: `type()`, `targetAbi()` and
`compilerCommand()` (the path, as a string). -/
structure ToolChain where
  type : String
  targetAbi : Abi
  compilerCommand : String
  deriving DecidableEq, Repr

/-- The part of `ProjectExplorer::Kit` that is read, each field through its
kit-information accessor: `SysRootKitInformation::sysRoot(k).toUserOutput()`,
`SysRootKitInformation::hasSysRoot(k)`, `ToolChainKitInformation::toolChain(k)` (a
null pointer is `none`) and `DeviceTypeKitInformation::deviceTypeId(k)`. -/
structure Kit where
  sysRoot : String
  hasSysRoot : Bool
  toolChain : Option ToolChain
  deviceTypeId : String
  deriving DecidableEq, Repr

/-- The named constants the code takes from headers that are not among the sources:
the property keys of `qbsconstants.h` and the device type ids of the project explorer,
iOS, QNX and WinRT plugins. They are parameters of the embedding. -/
structure Constants where
  QBS_SYSROOT : String
  QBS_ARCHITECTURE : String
  QBS_TARGETOS : String
  QBS_TOOLCHAIN : String
  CPP_XCODESDKNAME : String
  CPP_XCODESDKVERSION : String
  CPP_TOOLCHAINPREFIX : String
  CPP_COMPILERNAME : String
  CPP_LINKERNAME : String
  CPP_TOOLCHAINPATH : String
  CPP_PLATFORMCFLAGS : String
  CPP_PLATFORMCXXFLAGS : String
  DESKTOP_DEVICE_TYPE : String
  IOS_DEVICE_TYPE : String
  IOS_SIMULATOR_TYPE : String
  QNX_BB_OS_TYPE : String
  QNX_QNX_OS_TYPE : String
  WINRT_DEVICE_TYPE_LOCAL : String
  WINRT_DEVICE_TYPE_PHONE : String
  WINRT_DEVICE_TYPE_EMULATOR : String
  deriving DecidableEq, Repr

/-- The twelve property keys, in the order `properties()` writes them. -/
def Constants.keys (c : Constants) : List String :=
  [c.QBS_SYSROOT, c.QBS_ARCHITECTURE, c.QBS_TARGETOS, c.QBS_TOOLCHAIN,
   c.CPP_XCODESDKNAME, c.CPP_XCODESDKVERSION, c.CPP_TOOLCHAINPREFIX, c.CPP_COMPILERNAME,
   c.CPP_LINKERNAME, c.CPP_TOOLCHAINPATH, c.CPP_PLATFORMCFLAGS, c.CPP_PLATFORMCXXFLAGS]

/-- The eight device type ids `targetOSList` compares with. -/
def Constants.deviceTypes (c : Constants) : List String :=
  [c.DESKTOP_DEVICE_TYPE, c.IOS_DEVICE_TYPE, c.IOS_SIMULATOR_TYPE, c.QNX_BB_OS_TYPE,
   c.QNX_QNX_OS_TYPE, c.WINRT_DEVICE_TYPE_LOCAL, c.WINRT_DEVICE_TYPE_PHONE,
   c.WINRT_DEVICE_TYPE_EMULATOR]

/-- The property keys are pairwise different strings. -/
def Constants.KeysDistinct (c : Constants) : Prop := c.keys.Nodup

/-- The device type ids are pairwise different strings. -/
def Constants.DeviceTypesDistinct (c : Constants) : Prop := c.deviceTypes.Nodup

instance (c : Constants) : Decidable c.KeysDistinct :=
  inferInstanceAs (Decidable c.keys.Nodup)

instance (c : Constants) : Decidable c.DeviceTypesDistinct :=
  inferInstanceAs (Decidable c.deviceTypes.Nodup)

/-- The library functions `properties()` calls on its host: `Abi::toString`,
`qbs::Internal::HostOsInfo::canonicalArchitecture`, `QDir(path).dirName()`,
`QFileInfo::fileName()` and `QFileInfo::absolutePath()` of a path. None of them is
among the sources; they are parameters of the embedding. -/
structure Host where
  toString : Architecture → String
  canonicalArchitecture : String → String
  dirName : String → String
  fileName : String → String
  absolutePath : String → String

/-! ## QVariant and QVariantMap -/

/-- A `QVariant` as the property map holds it: a string or a string list. -/
inductive QVariant
  | string (s : String)
  | stringList (l : List String)
  deriving DecidableEq, Repr

/-- A `QVariantMap` (`QMap<QString, QVariant>`) as the partial function from keys to
values it denotes; `m key = none` says that `key` is absent. -/
abbrev QVariantMap := String → Option QVariant

/-- The map without any key. -/
def QVariantMap.empty : QVariantMap := fun _ => none

/-- `QMap::insert(key, value)`: the value of `key` becomes `value`, replacing an
earlier one; every other key keeps what it had. -/
def QVariantMap.insert (m : QVariantMap) (key : String) (value : QVariant) : QVariantMap :=
  fun k => if k = key then some value else m k

/-! ## The QString operations the code uses -/

namespace QString

/-- `QString::endsWith(s)`: the string ends with `s`. -/
def endsWith (self s : String) : Bool := s.data.isSuffixOf self.data

/-- The index of the last occurrence of `ch` in a list of characters, `-1` when it
does not occur. -/
def lastIndexOfList (ch : Char) : List Char → Int
  | [] => -1
  | x :: xs =>
    let r := lastIndexOfList ch xs
    if 0 ≤ r then r + 1 else if x = ch then 0 else -1

/-- `QString::lastIndexOf(ch)`: the index of the last occurrence of `ch`, `-1` when
there is none. -/
def lastIndexOf (self : String) (ch : Char) : Int := lastIndexOfList ch self.data

/-- `QString::left(n)`: the `n` leftmost characters; the entire string when `n` is
negative or at least the size. -/
def left (self : String) (n : Int) : String :=
  if n < 0 ∨ (self.data.length : Int) ≤ n then self else String.mk (self.data.take n.toNat)

/-- `QString::remove(position, n)`: removes `n` characters from index `position` on.
A negative `position` counts from the end; a position outside the string removes
nothing; a range past the end truncates the string at `position`. -/
def remove (self : String) (position n : Int) : String :=
  let size : Int := self.data.length
  let pos : Int := if position < 0 then position + size else position
  if pos < 0 ∨ size ≤ pos then self
  else if size - pos ≤ n then String.mk (self.data.take pos.toNat)
  else if 0 < n then String.mk (self.data.take pos.toNat ++ self.data.drop (pos.toNat + n.toNat))
  else self

/-- `QString::number(n)`: the decimal numeral of `n`. -/
def number (n : Nat) : String := toString n

/-- `QString::toLower()`, character by character. -/
def toLower (self : String) : String := String.mk (self.data.map Char.toLower)

end QString

/-! ## The static helpers -/

/-- `extractToolchainPrefix(QString *compilerName)`: the first component is the
returned prefix, the second is `*compilerName` after the call. -/
def extractToolchainPrefix (compilerName : String) : String × String :=
  if QString.endsWith compilerName "-g++" || QString.endsWith compilerName "-clang++" then
    let idx : Int := QString.lastIndexOf compilerName '-' + 1
    (QString.left compilerName idx, QString.remove compilerName 0 idx)
  else
    ("", compilerName)

/-- `targetOSList(abi, k)`: the tags specific to the device type or OS flavor, then
the tags of the OS family. -/
def targetOSList (c : Constants) (abi : Abi) (k : Kit) : List String :=
  let device := k.deviceTypeId
  let os : List String := []
  match abi.os with
  | .WindowsOS =>
    let os :=
      if device = c.WINRT_DEVICE_TYPE_LOCAL ∨ device = c.WINRT_DEVICE_TYPE_PHONE
          ∨ device = c.WINRT_DEVICE_TYPE_EMULATOR then
        os ++ ["winrt"]
      else if abi.osFlavor = .WindowsCEFlavor then
        os ++ ["windowsce"]
      else os
    os ++ ["windows"]
  | .MacOS =>
    let os :=
      if device = c.DESKTOP_DEVICE_TYPE then os ++ ["osx"]
      else if device = c.IOS_DEVICE_TYPE then os ++ ["ios"]
      else if device = c.IOS_SIMULATOR_TYPE then os ++ ["ios-simulator"] ++ ["ios"]
      else os
    os ++ ["darwin"] ++ ["bsd"] ++ ["unix"]
  | .LinuxOS =>
    let os := if abi.osFlavor = .AndroidLinuxFlavor then os ++ ["android"] else os
    os ++ ["linux"] ++ ["unix"]
  | .BsdOS =>
    let os :=
      match abi.osFlavor with
      | .FreeBsdFlavor => os ++ ["freebsd"]
      | .NetBsdFlavor => os ++ ["netbsd"]
      | .OpenBsdFlavor => os ++ ["openbsd"]
      | _ => os
    os ++ ["bsd"] ++ ["unix"]
  | .UnixOS =>
    let os :=
      if device = c.QNX_BB_OS_TYPE then os ++ ["blackberry"] ++ ["qnx"]
      else if device = c.QNX_QNX_OS_TYPE then os ++ ["qnx"]
      else if abi.osFlavor = .SolarisUnixFlavor then os ++ ["solaris"]
      else os
    os ++ ["unix"]
  | _ => os

/-- `toolchainList(tc)`: the toolchain tags of the toolchain type. -/
def toolchainList (tc : ToolChain) : List String :=
  let list : List String := []
  if tc.type = "clang" then list ++ ["clang"] ++ ["llvm"] ++ ["gcc"]
  else if tc.type = "gcc" then list ++ ["gcc"]
  else if tc.type = "mingw" then list ++ ["mingw"] ++ ["gcc"]
  else if tc.type = "msvc" then list ++ ["msvc"]
  else list

/-! ## DefaultPropertyProvider::properties -/

/-- The local `architecture` of `properties()` where it is handed to
`canonicalArchitecture`: `Abi::toString` of the architecture, with the suffix the
switch under `wordWidth() == 64` appends (x86 appends an underscore and falls through
to the branch that appends the word width). -/
def architectureString (h : Host) (targetAbi : Abi) : String :=
  let architecture := h.toString targetAbi.architecture
  if targetAbi.wordWidth = 64 then
    match targetAbi.architecture with
    | .X86Architecture => (architecture ++ "_") ++ QString.number targetAbi.wordWidth
    | .ArmArchitecture | .MipsArchitecture | .PowerPCArchitecture =>
      architecture ++ QString.number targetAbi.wordWidth
    | _ => architecture
  else architecture

/-- Reads a non-empty run of the characters `0` to `9` off the front: the run and
what follows it. -/
def digitRun (s : List Char) : Option (List Char × List Char) :=
  let d := s.takeWhile Char.isDigit
  if d = [] then none else some (d, s.dropWhile Char.isDigit)

/-- What follows the first group of the pattern: `([0-9]+\.[0-9]+)\.sdk` up to the end
of the input; the result is the text of the second group. -/
def sdkVersionPart (s : List Char) : Option (List Char) :=
  match digitRun s with
  | none => none
  | some (major, rest) =>
    match rest with
    | '.' :: rest =>
      match digitRun rest with
      | none => none
      | some (minor, rest) =>
        if rest = ".sdk".data then some (major ++ '.' :: minor) else none
    | _ => none

/-- One alternative of the first group: `name` starts with `p` and goes on as the
rest of the pattern says. -/
def sdkAlternative (p : String) (name : List Char) : Option (String × String) :=
  if p.data.isPrefixOf name then
    match sdkVersionPart (name.drop p.data.length) with
    | some version => some (p, String.mk version)
    | none => none
  else none

/-- `QRegExp("(MacOSX|iPhoneOS|iPhoneSimulator)([0-9]+\\.[0-9]+)\\.sdk")` and
`exactMatch(name)`: `none` when the whole of `name` does not match, else the captured
texts `cap(1)` and `cap(2)`. -/
def xcodeSdkRegExp (name : String) : Option (String × String) :=
  ((sdkAlternative "MacOSX" name.data).orElse fun _ =>
    sdkAlternative "iPhoneOS" name.data).orElse fun _ =>
      sdkAlternative "iPhoneSimulator" name.data

/-- `DefaultPropertyProvider::properties(k, defaultData)`; a null kit is `none`. -/
def properties (h : Host) (c : Constants) (k : Option Kit) (defaultData : QVariantMap) :
    QVariantMap :=
  match k with
  | none => defaultData
  | some k =>
    let data := defaultData
    let sysroot := k.sysRoot
    let data := if k.hasSysRoot then data.insert c.QBS_SYSROOT (.string sysroot) else data
    match k.toolChain with
    | none => data
    | some tc =>
      let targetAbi := tc.targetAbi
      let data :=
        if targetAbi.architecture ≠ .UnknownArchitecture then
          data.insert c.QBS_ARCHITECTURE
            (.string (h.canonicalArchitecture (architectureString h targetAbi)))
        else data
      let targetOS := targetOSList c targetAbi k
      let data := if targetOS ≠ [] then data.insert c.QBS_TARGETOS (.stringList targetOS) else data
      let toolchain := toolchainList tc
      let data :=
        if toolchain ≠ [] then data.insert c.QBS_TOOLCHAIN (.stringList toolchain) else data
      let data :=
        if targetAbi.os = .MacOS then
          match xcodeSdkRegExp (h.dirName sysroot) with
          | some (cap1, cap2) =>
            (data.insert c.CPP_XCODESDKNAME (.string (QString.toLower cap1 ++ cap2))).insert
              c.CPP_XCODESDKVERSION (.string cap2)
          | none => data
        else data
      let cxx := tc.compilerCommand
      let split := extractToolchainPrefix (h.fileName cxx)
      let toolchainPrefix := split.1
      let compilerName := split.2
      let data :=
        if toolchainPrefix ≠ "" then data.insert c.CPP_TOOLCHAINPREFIX (.string toolchainPrefix)
        else data
      let data := data.insert c.CPP_COMPILERNAME (.string compilerName)
      let data :=
        if targetAbi.os ≠ .WindowsOS ∨ targetAbi.osFlavor = .WindowsMSysFlavor then
          data.insert c.CPP_LINKERNAME (.string compilerName)
        else data
      let data := data.insert c.CPP_TOOLCHAINPATH (.string (h.absolutePath cxx))
      let data :=
        if targetAbi.osFlavor = .WindowsMsvc2013Flavor then
          (data.insert c.CPP_PLATFORMCFLAGS (.string "/FS")).insert
            c.CPP_PLATFORMCXXFLAGS (.string "/FS")
        else data
      data

/-! ## A concrete host and concrete constants -/

/-- Modelled from the spec: the headers that define the property keys and the device
type ids are not among the sources, and the spec gives no values for them. This is a
concrete assignment of pairwise different values, for evaluating the code. -/
def qtcConstants : Constants where
  QBS_SYSROOT := "qbs.sysroot"
  QBS_ARCHITECTURE := "qbs.architecture"
  QBS_TARGETOS := "qbs.targetOS"
  QBS_TOOLCHAIN := "qbs.toolchain"
  CPP_XCODESDKNAME := "cpp.xcodeSdkName"
  CPP_XCODESDKVERSION := "cpp.xcodeSdkVersion"
  CPP_TOOLCHAINPREFIX := "cpp.toolchainPrefix"
  CPP_COMPILERNAME := "cpp.compilerName"
  CPP_LINKERNAME := "cpp.linkerName"
  CPP_TOOLCHAINPATH := "cpp.toolchainInstallPath"
  CPP_PLATFORMCFLAGS := "cpp.platformCFlags"
  CPP_PLATFORMCXXFLAGS := "cpp.platformCxxFlags"
  DESKTOP_DEVICE_TYPE := "Desktop"
  IOS_DEVICE_TYPE := "Ios.Device.Type"
  IOS_SIMULATOR_TYPE := "Ios.Simulator.Type"
  QNX_BB_OS_TYPE := "BBOsType"
  QNX_QNX_OS_TYPE := "QnxOsType"
  WINRT_DEVICE_TYPE_LOCAL := "WinRt.Device.Local"
  WINRT_DEVICE_TYPE_PHONE := "WinRt.Device.Phone"
  WINRT_DEVICE_TYPE_EMULATOR := "WinRt.Device.Emulator"

/-- The text after the last slash of a path. -/
def lastComponent (path : String) : String :=
  String.mk (path.data.reverse.takeWhile (fun ch => ch != '/')).reverse

/-- The text before the last slash of a path. -/
def beforeLastComponent (path : String) : String :=
  String.mk ((path.data.reverse.dropWhile (fun ch => ch != '/')).drop 1).reverse

/-- Modelled from the spec: `Abi::toString`, `canonicalArchitecture` and the `QDir` and
`QFileInfo` accessors are not among the sources. This is a concrete host for
evaluating the code: short architecture names, no renaming of architectures, and
paths of slash-separated components without a trailing slash. -/
def qtcHost : Host where
  toString := fun a =>
    match a with
    | .ArmArchitecture => "arm"
    | .X86Architecture => "x86"
    | .ItaniumArchitecture => "itanium"
    | .MipsArchitecture => "mips"
    | .PowerPCArchitecture => "ppc"
    | .ShArchitecture => "sh"
    | .UnknownArchitecture => "unknown"
  canonicalArchitecture := fun s => s
  dirName := lastComponent
  fileName := lastComponent
  absolutePath := beforeLastComponent

/-- A clang toolchain for a 32-bit x86 macOS target. -/
def tcClangMac : ToolChain :=
  ⟨"clang", ⟨.X86Architecture, .MacOS, .GenericMacFlavor, 32⟩, "/usr/bin/clang++"⟩

/-- A kit for the iOS simulator with an Xcode SDK as sysroot. -/
def kitIosSimulator : Kit :=
  ⟨"/Developer/SDKs/iPhoneSimulator7.1.sdk", true, some tcClangMac, "Ios.Simulator.Type"⟩

/-- A gcc cross toolchain for a 64-bit ARM Linux target. -/
def tcGccArmLinux : ToolChain :=
  ⟨"gcc", ⟨.ArmArchitecture, .LinuxOS, .GenericLinuxFlavor, 64⟩,
    "/opt/cross/bin/arm-linux-gnueabi-g++"⟩

/-- A desktop kit with the ARM Linux cross toolchain and no sysroot. -/
def kitLinuxCross : Kit := ⟨"", false, some tcGccArmLinux, "Desktop"⟩

/-- An MSVC 2010 toolchain for a 64-bit x86 Windows target. -/
def tcMsvc2010 : ToolChain :=
  ⟨"msvc", ⟨.X86Architecture, .WindowsOS, .WindowsMsvc2010Flavor, 64⟩, "C:/VC/bin/cl.exe"⟩

/-- A desktop kit with the MSVC 2010 toolchain and no sysroot. -/
def kitWindowsMsvc : Kit := ⟨"", false, some tcMsvc2010, "Desktop"⟩

/-- A toolchain of a type `toolchainList` has no tags for, with an ABI of unknown
architecture and unknown OS. -/
def tcCustom : ToolChain :=
  ⟨"custom", ⟨.UnknownArchitecture, .UnknownOS, .UnknownFlavor, 32⟩, "/usr/bin/cc"⟩

/-- A desktop kit with the custom toolchain and no sysroot. -/
def kitCustom : Kit := ⟨"", false, some tcCustom, "Desktop"⟩

/-- A desktop kit that declares a sysroot and has no toolchain. -/
def kitNoToolchain : Kit := ⟨"/opt/sysroot", true, none, "Desktop"⟩

/-- A desktop kit for macOS with an Xcode SDK as sysroot. -/
def kitMacDesktop : Kit :=
  ⟨"/Developer/SDKs/MacOSX10.9.sdk", true, some tcClangMac, "Desktop"⟩

/-- The shape of a directory name that claim C9 speaks of: `name` is the platform `P`
(one of `MacOSX`, `iPhoneOS`, `iPhoneSimulator`), then `major`, a dot, `minor` and
`.sdk`, where `major` and `minor` are non-empty strings of the digits `0` to `9`. -/
def IsXcodeSdkName (name P major minor : String) : Prop :=
  (P = "MacOSX" ∨ P = "iPhoneOS" ∨ P = "iPhoneSimulator") ∧
  major ≠ "" ∧ (∀ ch ∈ major.data, ch.isDigit = true) ∧
  minor ≠ "" ∧ (∀ ch ∈ minor.data, ch.isDigit = true) ∧
  name = P ++ major ++ "." ++ minor ++ ".sdk"

/-- An MSVC 2013 toolchain for a 64-bit x86 Windows target. -/
def tcMsvc2013 : ToolChain :=
  ⟨"msvc", ⟨.X86Architecture, .WindowsOS, .WindowsMsvc2013Flavor, 64⟩, "C:/VC12/bin/cl.exe"⟩

/-- A desktop kit with the MSVC 2013 toolchain and no sysroot. -/
def kitWindowsMsvc2013 : Kit := ⟨"", false, some tcMsvc2013, "Desktop"⟩

end QbsProjectManager

/-!
The imports widget of the QML designer: a shallow embedding of
`src/plugins/qmldesigner/components/importmanager/importswidget.cpp`. The widget is the
pair of its member `m_importLabels` and the layout `QWidget::layout()` gives; every
method is a function from the state before the call to the state after it.
-/

namespace QmlDesigner

/-- Modelled from the spec: class `ImportLabel` (`importlabel.h`) is not among the
sources. It is the row view of one import record: it holds the record `setImport` gave
it last, and none right after its construction. -/
structure ImportLabel (Import : Type) where
  m_import : Option Import
  deriving DecidableEq, Repr

/-- The value of `new ImportLabel(this)`: a row view that has no record yet. -/
def newImportLabel {Import : Type} : ImportLabel Import := ⟨none⟩

/-- The call `importLabel->setImport(record)`. -/
def ImportLabel.setImport {Import : Type} (importLabel : ImportLabel Import)
    (record : Import) : ImportLabel Import :=
  { importLabel with m_import := some record }

/-- An item of a `QVBoxLayout`: a widget that `addWidget` appended or a stretch that
`addStretch` appended. -/
inductive LayoutItem (Import : Type)
  | widget (w : ImportLabel Import)
  | stretch
  deriving DecidableEq, Repr

/-- The state of an `ImportsWidget`: the list member `m_importLabels` and the layout
installed on the widget, `none` while `layout()` is null, else its items in order. -/
structure ImportsWidget (Import : Type) where
  m_importLabels : List (ImportLabel Import)
  layout : Option (List (LayoutItem Import))
  deriving DecidableEq, Repr

namespace ImportsWidget

variable {Import : Type} [DecidableEq Import]

/-- The constructor `ImportsWidget::ImportsWidget(parent)`: no rows and no layout. -/
def newImportsWidget : QmlDesigner.ImportsWidget Import := ⟨[], none⟩

/-- The statement `qDeleteAll(m_importLabels)`: every row view of the list is
destroyed, and a destroyed widget leaves the layout that holds it; the list itself
keeps its entries until `clear()`. -/
def qDeleteAll (w : QmlDesigner.ImportsWidget Import) : QmlDesigner.ImportsWidget Import :=
  { w with layout := w.layout.map fun items =>
      items.filter fun item =>
        match item with
        | .widget l => decide (l ∉ w.m_importLabels)
        | .stretch => true }

/-- The statement `m_importLabels.clear()`. -/
def clear (w : QmlDesigner.ImportsWidget Import) : QmlDesigner.ImportsWidget Import :=
  { w with m_importLabels := [] }

/-- `ImportsWidget::updateLayout()`: the old layout is deleted, a new `QVBoxLayout` is
installed, every row view is appended to it in list order, then a stretch. -/
def updateLayout (w : QmlDesigner.ImportsWidget Import) : QmlDesigner.ImportsWidget Import :=
  let w := { w with layout := none }
  let layout : List (LayoutItem Import) := []
  let layout := w.m_importLabels.foldl (fun l importLabel => l ++ [.widget importLabel]) layout
  let layout := layout ++ [.stretch]
  { w with layout := some layout }

/-- `ImportsWidget::removeAllImports()`. -/
def removeAllImports (w : QmlDesigner.ImportsWidget Import) : QmlDesigner.ImportsWidget Import :=
  let w := qDeleteAll w
  let w := clear w
  updateLayout w

/-- `ImportsWidget::setImports(imports)`: the loop body constructs a row view, gives it
the record and appends it to `m_importLabels`. -/
def setImports (w : QmlDesigner.ImportsWidget Import) (imports : List Import) :
    QmlDesigner.ImportsWidget Import :=
  let w := qDeleteAll w
  let w := clear w
  let w := imports.foldl (fun w record =>
    let importLabel : ImportLabel Import := newImportLabel
    let importLabel := importLabel.setImport record
    { w with m_importLabels := w.m_importLabels ++ [importLabel] }) w
  updateLayout w

end ImportsWidget

end QmlDesigner

namespace QbsProjectManager

/-! ## Lemmas on the string operations -/

theorem QString.lastIndexOfList_ge (ch : Char) (l : List Char) :
    -1 ≤ QString.lastIndexOfList ch l := by
  induction l with
  | nil => simp [QString.lastIndexOfList]
  | cons x xs ih =>
    simp only [QString.lastIndexOfList]
    split_ifs <;> omega

theorem QString.lastIndexOfList_not_mem (ch : Char) (l : List Char) (h : ch ∉ l) :
    QString.lastIndexOfList ch l = -1 := by
  induction l with
  | nil => simp [QString.lastIndexOfList]
  | cons x xs ih =>
    simp only [List.mem_cons, not_or] at h
    have hx : ¬ x = ch := fun e => h.1 e.symm
    simp [QString.lastIndexOfList, ih h.2, hx]

theorem QString.lastIndexOfList_append (ch : Char) (t r : List Char) (h : ch ∉ r) :
    QString.lastIndexOfList ch (t ++ ch :: r) = t.length := by
  induction t with
  | nil => simp [QString.lastIndexOfList, QString.lastIndexOfList_not_mem ch r h]
  | cons x xs ih =>
    have e : QString.lastIndexOfList ch (x :: (xs ++ ch :: r)) =
        if 0 ≤ QString.lastIndexOfList ch (xs ++ ch :: r) then
          QString.lastIndexOfList ch (xs ++ ch :: r) + 1
        else if x = ch then 0 else -1 := rfl
    have h0 : (0 : Int) ≤ (xs.length : Int) := Int.ofNat_nonneg _
    rw [List.cons_append, e, ih, if_pos h0, List.length_cons]
    push_cast
    rfl

theorem QString.left_of_lt (s : String) (n : Nat) (hn : n < s.data.length) :
    QString.left s (n : Int) = String.mk (s.data.take n) := by
  unfold QString.left
  rw [if_neg (by omega)]
  simp

theorem QString.remove_zero_of_lt (s : String) (n : Nat) (h0 : 0 < n)
    (hn : n < s.data.length) :
    QString.remove s 0 (n : Int) = String.mk (s.data.drop n) := by
  have hn0 : ¬ ((0 : Int) < 0 ∨ (s.data.length : Int) ≤ 0) := by omega
  have hn1 : ¬ ((s.data.length : Int) - 0 ≤ (n : Int)) := by omega
  have hn2 : (0 : Int) < (n : Int) := by omega
  have hp : (if (0 : Int) < 0 then (0 : Int) + (s.data.length : Int) else 0) = 0 :=
    if_neg (by decide)
  simp only [QString.remove, hp, if_neg hn0, if_neg hn1, if_pos hn2]
  simp

/-- Splitting a name at a hyphen that is followed by a hyphen-free, non-empty rest. -/
theorem extractToolchainPrefix_at_hyphen (t : String) (name : List Char)
    (hname : name ≠ []) (hfree : '-' ∉ name)
    (hends : (QString.endsWith (t ++ "-" ++ String.mk name) "-g++"
      || QString.endsWith (t ++ "-" ++ String.mk name) "-clang++") = true) :
    extractToolchainPrefix (t ++ "-" ++ String.mk name) = (t ++ "-", String.mk name) := by
  have hdata : (t ++ "-" ++ String.mk name).data = t.data ++ '-' :: name := by
    simp [String.data_append]
  have hidx : QString.lastIndexOf (t ++ "-" ++ String.mk name) '-' + 1
      = ((t.data.length + 1 : Nat) : Int) := by
    rw [QString.lastIndexOf, hdata, QString.lastIndexOfList_append _ _ _ hfree]
    push_cast
    rfl
  have hlen : 0 < name.length := List.length_pos.mpr hname
  have hlt : t.data.length + 1 < (t ++ "-" ++ String.mk name).data.length := by
    rw [hdata]
    simp only [List.length_append, List.length_cons]
    omega
  unfold extractToolchainPrefix
  rw [if_pos hends]
  simp only [hidx]
  rw [QString.left_of_lt _ _ hlt, QString.remove_zero_of_lt _ _ (by omega) hlt, hdata]
  refine Prod.ext ?_ ?_
  · apply String.ext
    simp [List.take_append_eq_append_take]
  · apply String.ext
    simp [List.drop_append_eq_append_drop]

theorem extractToolchainPrefix_no_suffix (s : String)
    (h1 : QString.endsWith s "-g++" = false) (h2 : QString.endsWith s "-clang++" = false) :
    extractToolchainPrefix s = ("", s) := by
  simp [extractToolchainPrefix, h1, h2]

/-- A string ends with `suf` exactly when it is some string followed by `suf`. -/
theorem QString.endsWith_iff (s suf : String) :
    QString.endsWith s suf = true ↔ ∃ t : String, s = t ++ suf := by
  unfold QString.endsWith
  rw [List.isSuffixOf_iff_suffix]
  constructor
  · rintro ⟨t, ht⟩
    refine ⟨String.mk t, ?_⟩
    apply String.ext
    simp [String.data_append, ht]
  · rintro ⟨t, ht⟩
    refine ⟨t.data, ?_⟩
    rw [ht]
    simp [String.data_append]

/-- The split of a name that ends in `-g++`. -/
theorem extractToolchainPrefix_gxx (t : String) :
    extractToolchainPrefix (t ++ "-g++") = (t ++ "-", "g++") := by
  have e1 : t ++ "-g++" = t ++ "-" ++ String.mk "g++".data := by
    rw [String.append_assoc]; rfl
  have hE : QString.endsWith (t ++ "-g++") "-g++" = true :=
    (QString.endsWith_iff _ _).mpr ⟨t, rfl⟩
  have key := extractToolchainPrefix_at_hyphen t "g++".data (by decide) (by decide)
    (by rw [← e1, hE]; rfl)
  rw [← e1] at key
  exact key

/-- The split of a name that ends in `-clang++`. -/
theorem extractToolchainPrefix_clangxx (t : String) :
    extractToolchainPrefix (t ++ "-clang++") = (t ++ "-", "clang++") := by
  have e2 : t ++ "-clang++" = t ++ "-" ++ String.mk "clang++".data := by
    rw [String.append_assoc]; rfl
  have hE : QString.endsWith (t ++ "-clang++") "-clang++" = true :=
    (QString.endsWith_iff _ _).mpr ⟨t, rfl⟩
  have key := extractToolchainPrefix_at_hyphen t "clang++".data (by decide) (by decide)
    (by rw [← e2, hE]; simp)
  rw [← e2] at key
  exact key

/-! ## Lemmas on the Xcode SDK pattern -/

theorem takeWhile_dropWhile_append {p : Char → Bool} (d rest : List Char)
    (hall : ∀ ch ∈ d, p ch = true) (hrest : ∀ ch, rest.head? = some ch → p ch = false) :
    (d ++ rest).takeWhile p = d ∧ (d ++ rest).dropWhile p = rest := by
  induction d with
  | nil =>
    cases rest with
    | nil => simp
    | cons x xs => simp [List.takeWhile, List.dropWhile, hrest x rfl]
  | cons x xs ih =>
    have hx : p x = true := hall x (List.mem_cons_self _ _)
    have ih2 := ih (fun ch hch => hall ch (List.mem_cons_of_mem _ hch))
    simp [List.takeWhile, List.dropWhile, hx, ih2.1, ih2.2]

theorem digitRun_append (d rest : List Char) (hne : d ≠ [])
    (hall : ∀ ch ∈ d, ch.isDigit = true)
    (hrest : ∀ ch, rest.head? = some ch → ch.isDigit = false) :
    digitRun (d ++ rest) = some (d, rest) := by
  have key := takeWhile_dropWhile_append d rest hall hrest
  simp [digitRun, key.1, key.2, hne]

theorem digitRun_some (s d rest : List Char) (hrun : digitRun s = some (d, rest)) :
    d ≠ [] ∧ (∀ ch ∈ d, ch.isDigit = true) ∧ s = d ++ rest := by
  unfold digitRun at hrun
  by_cases he : s.takeWhile Char.isDigit = []
  · simp [he] at hrun
  · simp only [he, if_false, Option.some.injEq, Prod.mk.injEq] at hrun
    obtain ⟨h1, h2⟩ := hrun
    subst h1 h2
    exact ⟨he, fun ch hch => List.mem_takeWhile_imp hch, (List.takeWhile_append_dropWhile _ _).symm⟩

theorem sdkVersionPart_shape (major minor : List Char) (h1 : major ≠ [])
    (h2 : ∀ ch ∈ major, ch.isDigit = true) (h3 : minor ≠ [])
    (h4 : ∀ ch ∈ minor, ch.isDigit = true) :
    sdkVersionPart (major ++ '.' :: (minor ++ ".sdk".data)) = some (major ++ '.' :: minor) := by
  have r1 := digitRun_append major ('.' :: (minor ++ ".sdk".data)) h1 h2
    (by intro ch hch; simp at hch; subst hch; decide)
  have r2 := digitRun_append minor ".sdk".data h3 h4
    (by intro ch hch; simp at hch; subst hch; decide)
  simp [sdkVersionPart, r1, r2]

theorem sdkVersionPart_some (s ver : List Char) (hs : sdkVersionPart s = some ver) :
    ∃ major minor : List Char, major ≠ [] ∧ (∀ ch ∈ major, ch.isDigit = true) ∧
      minor ≠ [] ∧ (∀ ch ∈ minor, ch.isDigit = true) ∧
      s = major ++ '.' :: (minor ++ ".sdk".data) ∧ ver = major ++ '.' :: minor := by
  unfold sdkVersionPart at hs
  cases h1 : digitRun s with
  | none => simp [h1] at hs
  | some p1 =>
    obtain ⟨major, rest⟩ := p1
    obtain ⟨a1, a2, a3⟩ := digitRun_some s major rest h1
    simp only [h1] at hs
    split at hs
    · rename_i rest2
      cases h2 : digitRun rest2 with
      | none => simp [h2] at hs
      | some p2 =>
        obtain ⟨minor, rest3⟩ := p2
        obtain ⟨b1, b2, b3⟩ := digitRun_some rest2 minor rest3 h2
        simp only [h2] at hs
        by_cases he : rest3 = ".sdk".data
        · simp only [he, if_true, Option.some.injEq] at hs
          refine ⟨major, minor, a1, a2, b1, b2, ?_, hs.symm⟩
          rw [a3, b3, he]
        · simp [he] at hs
    · simp at hs

theorem sdkAlternative_shape (P : String) (major minor : List Char) (h1 : major ≠ [])
    (h2 : ∀ ch ∈ major, ch.isDigit = true) (h3 : minor ≠ [])
    (h4 : ∀ ch ∈ minor, ch.isDigit = true) :
    sdkAlternative P (P.data ++ (major ++ '.' :: (minor ++ ".sdk".data)))
      = some (P, String.mk (major ++ '.' :: minor)) := by
  simp [sdkAlternative, sdkVersionPart_shape major minor h1 h2 h3 h4]

theorem sdkAlternative_some (P : String) (name : List Char) (p v : String)
    (hs : sdkAlternative P name = some (p, v)) :
    p = P ∧ ∃ major minor : List Char, major ≠ [] ∧ (∀ ch ∈ major, ch.isDigit = true) ∧
      minor ≠ [] ∧ (∀ ch ∈ minor, ch.isDigit = true) ∧
      name = P.data ++ (major ++ '.' :: (minor ++ ".sdk".data)) ∧
      v = String.mk (major ++ '.' :: minor) := by
  unfold sdkAlternative at hs
  by_cases hp : P.data.isPrefixOf name = true
  · rw [if_pos hp] at hs
    split at hs
    · rename_i ver hv
      simp only [Option.some.injEq, Prod.mk.injEq] at hs
      obtain ⟨major, minor, c1, c2, c3, c4, c5, c6⟩ := sdkVersionPart_some _ _ hv
      refine ⟨hs.1.symm, major, minor, c1, c2, c3, c4, ?_, ?_⟩
      · obtain ⟨t, ht⟩ := List.isPrefixOf_iff_prefix.mp hp
        rw [← ht] at c5
        have hdrop : List.drop P.data.length (P.data ++ t) = t := List.drop_left _ _
        rw [hdrop] at c5
        rw [← ht, c5]
      · rw [← hs.2, c6]
    · simp at hs
  · rw [if_neg hp] at hs
    simp at hs

/-- The pattern matches a name of the shape platform, digits, dot, digits, `.sdk`, and
captures the platform and the version. -/
theorem xcodeSdkRegExp_shape (P : String) (major minor : List Char)
    (hP : P = "MacOSX" ∨ P = "iPhoneOS" ∨ P = "iPhoneSimulator") (h1 : major ≠ [])
    (h2 : ∀ ch ∈ major, ch.isDigit = true) (h3 : minor ≠ [])
    (h4 : ∀ ch ∈ minor, ch.isDigit = true) :
    xcodeSdkRegExp (String.mk (P.data ++ (major ++ '.' :: (minor ++ ".sdk".data))))
      = some (P, String.mk (major ++ '.' :: minor)) := by
  have key := sdkAlternative_shape P major minor h1 h2 h3 h4
  unfold xcodeSdkRegExp
  rcases hP with e | e | e
  · subst e
    rw [key]
    rfl
  · subst e
    have n1 : sdkAlternative "MacOSX"
        ("iPhoneOS".data ++ (major ++ '.' :: (minor ++ ".sdk".data))) = none := by
      simp [sdkAlternative, List.isPrefixOf]
    simp only [n1, key]
    rfl
  · subst e
    have n1 : sdkAlternative "MacOSX"
        ("iPhoneSimulator".data ++ (major ++ '.' :: (minor ++ ".sdk".data))) = none := by
      simp [sdkAlternative, List.isPrefixOf]
    have n2 : sdkAlternative "iPhoneOS"
        ("iPhoneSimulator".data ++ (major ++ '.' :: (minor ++ ".sdk".data))) = none := by
      simp [sdkAlternative, List.isPrefixOf]
    simp only [n1, n2, key]
    rfl

/-- Whatever the pattern matches has the shape platform, digits, dot, digits, `.sdk`. -/
theorem xcodeSdkRegExp_some (name p v : String) (hs : xcodeSdkRegExp name = some (p, v)) :
    (p = "MacOSX" ∨ p = "iPhoneOS" ∨ p = "iPhoneSimulator") ∧
    ∃ major minor : List Char, major ≠ [] ∧ (∀ ch ∈ major, ch.isDigit = true) ∧
      minor ≠ [] ∧ (∀ ch ∈ minor, ch.isDigit = true) ∧
      name.data = p.data ++ (major ++ '.' :: (minor ++ ".sdk".data)) ∧
      v = String.mk (major ++ '.' :: minor) := by
  unfold xcodeSdkRegExp at hs
  cases h1 : sdkAlternative "MacOSX" name.data with
  | some r =>
    rw [h1] at hs
    simp only [Option.orElse] at hs
    cases hs
    obtain ⟨e, rest⟩ := sdkAlternative_some _ _ _ _ h1
    subst e
    exact ⟨Or.inl rfl, rest⟩
  | none =>
    rw [h1] at hs
    cases h2 : sdkAlternative "iPhoneOS" name.data with
    | some r =>
      rw [h2] at hs
      simp only [Option.orElse] at hs
      cases hs
      obtain ⟨e, rest⟩ := sdkAlternative_some _ _ _ _ h2
      subst e
      exact ⟨Or.inr (Or.inl rfl), rest⟩
    | none =>
      rw [h2] at hs
      simp only [Option.orElse] at hs
      obtain ⟨e, rest⟩ := sdkAlternative_some _ _ _ _ hs
      subst e
      exact ⟨Or.inr (Or.inr rfl), rest⟩


/-- A name of the shape of `IsXcodeSdkName` is matched, with the platform and the
version as captures. -/
theorem xcodeSdkRegExp_of_shape (name P major minor : String)
    (hs : IsXcodeSdkName name P major minor) :
    xcodeSdkRegExp name = some (P, major ++ "." ++ minor) := by
  obtain ⟨hP, h1, h2, h3, h4, h5⟩ := hs
  have e1 : name = String.mk (P.data ++ (major.data ++ '.' :: (minor.data ++ ".sdk".data))) := by
    rw [h5]
    apply String.ext
    simp [String.data_append]
  have e2 : major ++ "." ++ minor = String.mk (major.data ++ '.' :: minor.data) := by
    apply String.ext
    simp [String.data_append]
  rw [e1, e2]
  exact xcodeSdkRegExp_shape P major.data minor.data hP (fun e => h1 (String.ext e)) h2
    (fun e => h3 (String.ext e)) h4

/-- A name that has not the shape of `IsXcodeSdkName` is not matched. -/
theorem xcodeSdkRegExp_none_of_not_shape (name : String)
    (hs : ¬ ∃ P major minor : String, IsXcodeSdkName name P major minor) :
    xcodeSdkRegExp name = none := by
  cases hx : xcodeSdkRegExp name with
  | none => rfl
  | some r =>
    obtain ⟨p, v⟩ := r
    obtain ⟨hP, major, minor, c1, c2, c3, c4, c5, _⟩ := xcodeSdkRegExp_some name p v hx
    refine absurd ⟨p, String.mk major, String.mk minor, hP, ?_, c2, ?_, c4, ?_⟩ hs
    · exact fun e => c1 (congrArg String.data e)
    · exact fun e => c3 (congrArg String.data e)
    · apply String.ext
      rw [c5]
      simp [String.data_append]

/-! ## Lemmas on the property map -/

theorem QVariantMap.insert_same (m : QVariantMap) (key : String) (value : QVariant) :
    m.insert key value key = some value := by
  simp [QVariantMap.insert]

theorem QVariantMap.insert_other (m : QVariantMap) (key : String) (value : QVariant)
    (k : String) (hk : k ≠ key) : m.insert key value k = m k := by
  simp [QVariantMap.insert, hk]

theorem QVariantMap.ite_insert_other (b : Prop) [Decidable b] (m : QVariantMap)
    (key : String) (value : QVariant) (k : String) (hk : k ≠ key) :
    (if b then m.insert key value else m) k = m k := by
  split <;> simp [QVariantMap.insert, hk]

theorem QVariantMap.ite_insert_same (b : Prop) [Decidable b] (m : QVariantMap)
    (key : String) (value : QVariant) :
    (if b then m.insert key value else m) key = if b then some value else m key := by
  split <;> simp [QVariantMap.insert]

theorem QVariantMap.ite_insert_insert_other (b : Prop) [Decidable b] (m : QVariantMap)
    (key1 key2 : String) (v1 v2 : QVariant) (k : String) (h1 : k ≠ key1) (h2 : k ≠ key2) :
    (if b then (m.insert key1 v1).insert key2 v2 else m) k = m k := by
  split <;> simp [QVariantMap.insert, h1, h2]

theorem QVariantMap.ite_insert_insert_first (b : Prop) [Decidable b] (m : QVariantMap)
    (key1 key2 : String) (v1 v2 : QVariant) (h12 : key1 ≠ key2) :
    (if b then (m.insert key1 v1).insert key2 v2 else m) key1 =
      if b then some v1 else m key1 := by
  split <;> simp [QVariantMap.insert, h12]

theorem QVariantMap.ite_insert_insert_second (b : Prop) [Decidable b] (m : QVariantMap)
    (key1 key2 : String) (v1 v2 : QVariant) :
    (if b then (m.insert key1 v1).insert key2 v2 else m) key2 =
      if b then some v2 else m key2 := by
  split <;> simp [QVariantMap.insert]

/-! ## What `properties` leaves under each key, for a kit with a toolchain -/

/-- The value under the architecture key. -/
theorem properties_value_architecture (h : Host) (c : Constants) (k : Kit) (tc : ToolChain)
    (base : QVariantMap) (hk : c.KeysDistinct) (htc : k.toolChain = some tc) :
    properties h c (some k) base c.QBS_ARCHITECTURE =
      if tc.targetAbi.architecture ≠ .UnknownArchitecture then
        some (.string (h.canonicalArchitecture (architectureString h tc.targetAbi)))
      else base c.QBS_ARCHITECTURE := by
  have hr : c.keys.reverse.Nodup := List.nodup_reverse.mpr hk
  simp only [Constants.KeysDistinct, Constants.keys, List.nodup_cons, List.mem_cons,
    List.mem_singleton, not_or, List.not_mem_nil, not_false_eq_true, List.nodup_nil,
    and_true] at hk
  simp only [Constants.keys, List.reverse_cons, List.reverse_nil, List.nil_append,
    List.cons_append, List.nodup_cons, List.mem_cons, List.mem_singleton, not_or,
    List.not_mem_nil, not_false_eq_true, List.nodup_nil, and_true] at hr
  unfold properties
  simp only [htc]
  cases hx : xcodeSdkRegExp (h.dirName k.sysRoot) with
  | none =>
    simp only [ite_self]
    simp only [QVariantMap.ite_insert_insert_other, QVariantMap.ite_insert_other,
      QVariantMap.insert_other, QVariantMap.insert_same, QVariantMap.ite_insert_same,
      QVariantMap.ite_insert_insert_first, QVariantMap.ite_insert_insert_second, ne_eq, hk,
      hr, not_false_eq_true]
  | some p =>
    obtain ⟨cap1, cap2⟩ := p
    simp only [QVariantMap.ite_insert_insert_other, QVariantMap.ite_insert_other,
      QVariantMap.insert_other, QVariantMap.insert_same, QVariantMap.ite_insert_same,
      QVariantMap.ite_insert_insert_first, QVariantMap.ite_insert_insert_second, ne_eq, hk,
      hr, not_false_eq_true]

/-- The value under the target-OS key. -/
theorem properties_value_targetOS (h : Host) (c : Constants) (k : Kit) (tc : ToolChain)
    (base : QVariantMap) (hk : c.KeysDistinct) (htc : k.toolChain = some tc) :
    properties h c (some k) base c.QBS_TARGETOS =
      if targetOSList c tc.targetAbi k ≠ [] then
        some (.stringList (targetOSList c tc.targetAbi k))
      else base c.QBS_TARGETOS := by
  have hr : c.keys.reverse.Nodup := List.nodup_reverse.mpr hk
  simp only [Constants.KeysDistinct, Constants.keys, List.nodup_cons, List.mem_cons,
    List.mem_singleton, not_or, List.not_mem_nil, not_false_eq_true, List.nodup_nil,
    and_true] at hk
  simp only [Constants.keys, List.reverse_cons, List.reverse_nil, List.nil_append,
    List.cons_append, List.nodup_cons, List.mem_cons, List.mem_singleton, not_or,
    List.not_mem_nil, not_false_eq_true, List.nodup_nil, and_true] at hr
  unfold properties
  simp only [htc]
  cases hx : xcodeSdkRegExp (h.dirName k.sysRoot) with
  | none =>
    simp only [ite_self]
    simp only [QVariantMap.ite_insert_insert_other, QVariantMap.ite_insert_other,
      QVariantMap.insert_other, QVariantMap.insert_same, QVariantMap.ite_insert_same,
      QVariantMap.ite_insert_insert_first, QVariantMap.ite_insert_insert_second, ne_eq, hk,
      hr, not_false_eq_true]
  | some p =>
    obtain ⟨cap1, cap2⟩ := p
    simp only [QVariantMap.ite_insert_insert_other, QVariantMap.ite_insert_other,
      QVariantMap.insert_other, QVariantMap.insert_same, QVariantMap.ite_insert_same,
      QVariantMap.ite_insert_insert_first, QVariantMap.ite_insert_insert_second, ne_eq, hk,
      hr, not_false_eq_true]

/-- The value under the toolchain key. -/
theorem properties_value_toolchain (h : Host) (c : Constants) (k : Kit) (tc : ToolChain)
    (base : QVariantMap) (hk : c.KeysDistinct) (htc : k.toolChain = some tc) :
    properties h c (some k) base c.QBS_TOOLCHAIN =
      if toolchainList tc ≠ [] then some (.stringList (toolchainList tc))
      else base c.QBS_TOOLCHAIN := by
  have hr : c.keys.reverse.Nodup := List.nodup_reverse.mpr hk
  simp only [Constants.KeysDistinct, Constants.keys, List.nodup_cons, List.mem_cons,
    List.mem_singleton, not_or, List.not_mem_nil, not_false_eq_true, List.nodup_nil,
    and_true] at hk
  simp only [Constants.keys, List.reverse_cons, List.reverse_nil, List.nil_append,
    List.cons_append, List.nodup_cons, List.mem_cons, List.mem_singleton, not_or,
    List.not_mem_nil, not_false_eq_true, List.nodup_nil, and_true] at hr
  unfold properties
  simp only [htc]
  cases hx : xcodeSdkRegExp (h.dirName k.sysRoot) with
  | none =>
    simp only [ite_self]
    simp only [QVariantMap.ite_insert_insert_other, QVariantMap.ite_insert_other,
      QVariantMap.insert_other, QVariantMap.insert_same, QVariantMap.ite_insert_same,
      QVariantMap.ite_insert_insert_first, QVariantMap.ite_insert_insert_second, ne_eq, hk,
      hr, not_false_eq_true]
  | some p =>
    obtain ⟨cap1, cap2⟩ := p
    simp only [QVariantMap.ite_insert_insert_other, QVariantMap.ite_insert_other,
      QVariantMap.insert_other, QVariantMap.insert_same, QVariantMap.ite_insert_same,
      QVariantMap.ite_insert_insert_first, QVariantMap.ite_insert_insert_second, ne_eq, hk,
      hr, not_false_eq_true]

/-- The value under the compiler-name key. -/
theorem properties_value_compilerName (h : Host) (c : Constants) (k : Kit) (tc : ToolChain)
    (base : QVariantMap) (hk : c.KeysDistinct) (htc : k.toolChain = some tc) :
    properties h c (some k) base c.CPP_COMPILERNAME =
      some (.string (extractToolchainPrefix (h.fileName tc.compilerCommand)).2) := by
  have hr : c.keys.reverse.Nodup := List.nodup_reverse.mpr hk
  simp only [Constants.KeysDistinct, Constants.keys, List.nodup_cons, List.mem_cons,
    List.mem_singleton, not_or, List.not_mem_nil, not_false_eq_true, List.nodup_nil,
    and_true] at hk
  simp only [Constants.keys, List.reverse_cons, List.reverse_nil, List.nil_append,
    List.cons_append, List.nodup_cons, List.mem_cons, List.mem_singleton, not_or,
    List.not_mem_nil, not_false_eq_true, List.nodup_nil, and_true] at hr
  unfold properties
  simp only [htc]
  cases hx : xcodeSdkRegExp (h.dirName k.sysRoot) with
  | none =>
    simp only [ite_self]
    simp only [QVariantMap.ite_insert_insert_other, QVariantMap.ite_insert_other,
      QVariantMap.insert_other, QVariantMap.insert_same, QVariantMap.ite_insert_same,
      QVariantMap.ite_insert_insert_first, QVariantMap.ite_insert_insert_second, ne_eq, hk,
      hr, not_false_eq_true]
  | some p =>
    obtain ⟨cap1, cap2⟩ := p
    simp only [QVariantMap.ite_insert_insert_other, QVariantMap.ite_insert_other,
      QVariantMap.insert_other, QVariantMap.insert_same, QVariantMap.ite_insert_same,
      QVariantMap.ite_insert_insert_first, QVariantMap.ite_insert_insert_second, ne_eq, hk,
      hr, not_false_eq_true]

/-- The value under the linker-name key. -/
theorem properties_value_linkerName (h : Host) (c : Constants) (k : Kit) (tc : ToolChain)
    (base : QVariantMap) (hk : c.KeysDistinct) (htc : k.toolChain = some tc) :
    properties h c (some k) base c.CPP_LINKERNAME =
      if tc.targetAbi.os ≠ .WindowsOS ∨ tc.targetAbi.osFlavor = .WindowsMSysFlavor then
        some (.string (extractToolchainPrefix (h.fileName tc.compilerCommand)).2)
      else base c.CPP_LINKERNAME := by
  have hr : c.keys.reverse.Nodup := List.nodup_reverse.mpr hk
  simp only [Constants.KeysDistinct, Constants.keys, List.nodup_cons, List.mem_cons,
    List.mem_singleton, not_or, List.not_mem_nil, not_false_eq_true, List.nodup_nil,
    and_true] at hk
  simp only [Constants.keys, List.reverse_cons, List.reverse_nil, List.nil_append,
    List.cons_append, List.nodup_cons, List.mem_cons, List.mem_singleton, not_or,
    List.not_mem_nil, not_false_eq_true, List.nodup_nil, and_true] at hr
  unfold properties
  simp only [htc]
  cases hx : xcodeSdkRegExp (h.dirName k.sysRoot) with
  | none =>
    simp only [ite_self]
    simp only [QVariantMap.ite_insert_insert_other, QVariantMap.ite_insert_other,
      QVariantMap.insert_other, QVariantMap.insert_same, QVariantMap.ite_insert_same,
      QVariantMap.ite_insert_insert_first, QVariantMap.ite_insert_insert_second, ne_eq, hk,
      hr, not_false_eq_true]
  | some p =>
    obtain ⟨cap1, cap2⟩ := p
    simp only [QVariantMap.ite_insert_insert_other, QVariantMap.ite_insert_other,
      QVariantMap.insert_other, QVariantMap.insert_same, QVariantMap.ite_insert_same,
      QVariantMap.ite_insert_insert_first, QVariantMap.ite_insert_insert_second, ne_eq, hk,
      hr, not_false_eq_true]

/-- The value under the Xcode SDK name key. -/
theorem properties_value_xcodeSdkName (h : Host) (c : Constants) (k : Kit) (tc : ToolChain)
    (base : QVariantMap) (hk : c.KeysDistinct) (htc : k.toolChain = some tc) :
    properties h c (some k) base c.CPP_XCODESDKNAME =
      if tc.targetAbi.os = .MacOS then
        match xcodeSdkRegExp (h.dirName k.sysRoot) with
        | some p => some (.string (QString.toLower p.1 ++ p.2))
        | none => base c.CPP_XCODESDKNAME
      else base c.CPP_XCODESDKNAME := by
  have hr : c.keys.reverse.Nodup := List.nodup_reverse.mpr hk
  simp only [Constants.KeysDistinct, Constants.keys, List.nodup_cons, List.mem_cons,
    List.mem_singleton, not_or, List.not_mem_nil, not_false_eq_true, List.nodup_nil,
    and_true] at hk
  simp only [Constants.keys, List.reverse_cons, List.reverse_nil, List.nil_append,
    List.cons_append, List.nodup_cons, List.mem_cons, List.mem_singleton, not_or,
    List.not_mem_nil, not_false_eq_true, List.nodup_nil, and_true] at hr
  unfold properties
  simp only [htc]
  cases hx : xcodeSdkRegExp (h.dirName k.sysRoot) with
  | none =>
    simp only [ite_self]
    simp only [QVariantMap.ite_insert_insert_other, QVariantMap.ite_insert_other,
      QVariantMap.insert_other, QVariantMap.insert_same, QVariantMap.ite_insert_same,
      QVariantMap.ite_insert_insert_first, QVariantMap.ite_insert_insert_second, ne_eq, hk,
      hr, not_false_eq_true]
  | some p =>
    obtain ⟨cap1, cap2⟩ := p
    simp only [QVariantMap.ite_insert_insert_other, QVariantMap.ite_insert_other,
      QVariantMap.insert_other, QVariantMap.insert_same, QVariantMap.ite_insert_same,
      QVariantMap.ite_insert_insert_first, QVariantMap.ite_insert_insert_second, ne_eq, hk,
      hr, not_false_eq_true]

/-- The value under the Xcode SDK version key. -/
theorem properties_value_xcodeSdkVersion (h : Host) (c : Constants) (k : Kit) (tc : ToolChain)
    (base : QVariantMap) (hk : c.KeysDistinct) (htc : k.toolChain = some tc) :
    properties h c (some k) base c.CPP_XCODESDKVERSION =
      if tc.targetAbi.os = .MacOS then
        match xcodeSdkRegExp (h.dirName k.sysRoot) with
        | some p => some (.string (p.2))
        | none => base c.CPP_XCODESDKVERSION
      else base c.CPP_XCODESDKVERSION := by
  have hr : c.keys.reverse.Nodup := List.nodup_reverse.mpr hk
  simp only [Constants.KeysDistinct, Constants.keys, List.nodup_cons, List.mem_cons,
    List.mem_singleton, not_or, List.not_mem_nil, not_false_eq_true, List.nodup_nil,
    and_true] at hk
  simp only [Constants.keys, List.reverse_cons, List.reverse_nil, List.nil_append,
    List.cons_append, List.nodup_cons, List.mem_cons, List.mem_singleton, not_or,
    List.not_mem_nil, not_false_eq_true, List.nodup_nil, and_true] at hr
  unfold properties
  simp only [htc]
  cases hx : xcodeSdkRegExp (h.dirName k.sysRoot) with
  | none =>
    simp only [ite_self]
    simp only [QVariantMap.ite_insert_insert_other, QVariantMap.ite_insert_other,
      QVariantMap.insert_other, QVariantMap.insert_same, QVariantMap.ite_insert_same,
      QVariantMap.ite_insert_insert_first, QVariantMap.ite_insert_insert_second, ne_eq, hk,
      hr, not_false_eq_true]
  | some p =>
    obtain ⟨cap1, cap2⟩ := p
    simp only [QVariantMap.ite_insert_insert_other, QVariantMap.ite_insert_other,
      QVariantMap.insert_other, QVariantMap.insert_same, QVariantMap.ite_insert_same,
      QVariantMap.ite_insert_insert_first, QVariantMap.ite_insert_insert_second, ne_eq, hk,
      hr, not_false_eq_true]

/-- The value under the sysroot key. -/
theorem properties_value_sysroot (h : Host) (c : Constants) (k : Kit) (tc : ToolChain)
    (base : QVariantMap) (hk : c.KeysDistinct) (htc : k.toolChain = some tc) :
    properties h c (some k) base c.QBS_SYSROOT =
      if k.hasSysRoot then some (.string k.sysRoot) else base c.QBS_SYSROOT := by
  have hr : c.keys.reverse.Nodup := List.nodup_reverse.mpr hk
  simp only [Constants.KeysDistinct, Constants.keys, List.nodup_cons, List.mem_cons,
    List.mem_singleton, not_or, List.not_mem_nil, not_false_eq_true, List.nodup_nil,
    and_true] at hk
  simp only [Constants.keys, List.reverse_cons, List.reverse_nil, List.nil_append,
    List.cons_append, List.nodup_cons, List.mem_cons, List.mem_singleton, not_or,
    List.not_mem_nil, not_false_eq_true, List.nodup_nil, and_true] at hr
  unfold properties
  simp only [htc]
  cases hx : xcodeSdkRegExp (h.dirName k.sysRoot) with
  | none =>
    simp only [ite_self]
    simp only [QVariantMap.ite_insert_insert_other, QVariantMap.ite_insert_other,
      QVariantMap.insert_other, QVariantMap.insert_same, QVariantMap.ite_insert_same,
      QVariantMap.ite_insert_insert_first, QVariantMap.ite_insert_insert_second, ne_eq, hk,
      hr, not_false_eq_true]
  | some p =>
    obtain ⟨cap1, cap2⟩ := p
    simp only [QVariantMap.ite_insert_insert_other, QVariantMap.ite_insert_other,
      QVariantMap.insert_other, QVariantMap.insert_same, QVariantMap.ite_insert_same,
      QVariantMap.ite_insert_insert_first, QVariantMap.ite_insert_insert_second, ne_eq, hk,
      hr, not_false_eq_true]

/-- The value under the toolchain-prefix key. -/
theorem properties_value_toolchainPrefix (h : Host) (c : Constants) (k : Kit) (tc : ToolChain)
    (base : QVariantMap) (hk : c.KeysDistinct) (htc : k.toolChain = some tc) :
    properties h c (some k) base c.CPP_TOOLCHAINPREFIX =
      if (extractToolchainPrefix (h.fileName tc.compilerCommand)).1 ≠ "" then
        some (.string (extractToolchainPrefix (h.fileName tc.compilerCommand)).1)
      else base c.CPP_TOOLCHAINPREFIX := by
  have hr : c.keys.reverse.Nodup := List.nodup_reverse.mpr hk
  simp only [Constants.KeysDistinct, Constants.keys, List.nodup_cons, List.mem_cons,
    List.mem_singleton, not_or, List.not_mem_nil, not_false_eq_true, List.nodup_nil,
    and_true] at hk
  simp only [Constants.keys, List.reverse_cons, List.reverse_nil, List.nil_append,
    List.cons_append, List.nodup_cons, List.mem_cons, List.mem_singleton, not_or,
    List.not_mem_nil, not_false_eq_true, List.nodup_nil, and_true] at hr
  unfold properties
  simp only [htc]
  cases hx : xcodeSdkRegExp (h.dirName k.sysRoot) with
  | none =>
    simp only [ite_self]
    simp only [QVariantMap.ite_insert_insert_other, QVariantMap.ite_insert_other,
      QVariantMap.insert_other, QVariantMap.insert_same, QVariantMap.ite_insert_same,
      QVariantMap.ite_insert_insert_first, QVariantMap.ite_insert_insert_second, ne_eq, hk,
      hr, not_false_eq_true]
  | some p =>
    obtain ⟨cap1, cap2⟩ := p
    simp only [QVariantMap.ite_insert_insert_other, QVariantMap.ite_insert_other,
      QVariantMap.insert_other, QVariantMap.insert_same, QVariantMap.ite_insert_same,
      QVariantMap.ite_insert_insert_first, QVariantMap.ite_insert_insert_second, ne_eq, hk,
      hr, not_false_eq_true]

/-- The value under the toolchain-path key. -/
theorem properties_value_toolchainPath (h : Host) (c : Constants) (k : Kit) (tc : ToolChain)
    (base : QVariantMap) (hk : c.KeysDistinct) (htc : k.toolChain = some tc) :
    properties h c (some k) base c.CPP_TOOLCHAINPATH =
      some (.string (h.absolutePath tc.compilerCommand)) := by
  have hr : c.keys.reverse.Nodup := List.nodup_reverse.mpr hk
  simp only [Constants.KeysDistinct, Constants.keys, List.nodup_cons, List.mem_cons,
    List.mem_singleton, not_or, List.not_mem_nil, not_false_eq_true, List.nodup_nil,
    and_true] at hk
  simp only [Constants.keys, List.reverse_cons, List.reverse_nil, List.nil_append,
    List.cons_append, List.nodup_cons, List.mem_cons, List.mem_singleton, not_or,
    List.not_mem_nil, not_false_eq_true, List.nodup_nil, and_true] at hr
  unfold properties
  simp only [htc]
  cases hx : xcodeSdkRegExp (h.dirName k.sysRoot) with
  | none =>
    simp only [ite_self]
    simp only [QVariantMap.ite_insert_insert_other, QVariantMap.ite_insert_other,
      QVariantMap.insert_other, QVariantMap.insert_same, QVariantMap.ite_insert_same,
      QVariantMap.ite_insert_insert_first, QVariantMap.ite_insert_insert_second, ne_eq, hk,
      hr, not_false_eq_true]
  | some p =>
    obtain ⟨cap1, cap2⟩ := p
    simp only [QVariantMap.ite_insert_insert_other, QVariantMap.ite_insert_other,
      QVariantMap.insert_other, QVariantMap.insert_same, QVariantMap.ite_insert_same,
      QVariantMap.ite_insert_insert_first, QVariantMap.ite_insert_insert_second, ne_eq, hk,
      hr, not_false_eq_true]

/-- The value under the platform C-flags key. -/
theorem properties_value_platformCFlags (h : Host) (c : Constants) (k : Kit) (tc : ToolChain)
    (base : QVariantMap) (hk : c.KeysDistinct) (htc : k.toolChain = some tc) :
    properties h c (some k) base c.CPP_PLATFORMCFLAGS =
      if tc.targetAbi.osFlavor = .WindowsMsvc2013Flavor then some (.string "/FS")
      else base c.CPP_PLATFORMCFLAGS := by
  have hr : c.keys.reverse.Nodup := List.nodup_reverse.mpr hk
  simp only [Constants.KeysDistinct, Constants.keys, List.nodup_cons, List.mem_cons,
    List.mem_singleton, not_or, List.not_mem_nil, not_false_eq_true, List.nodup_nil,
    and_true] at hk
  simp only [Constants.keys, List.reverse_cons, List.reverse_nil, List.nil_append,
    List.cons_append, List.nodup_cons, List.mem_cons, List.mem_singleton, not_or,
    List.not_mem_nil, not_false_eq_true, List.nodup_nil, and_true] at hr
  unfold properties
  simp only [htc]
  cases hx : xcodeSdkRegExp (h.dirName k.sysRoot) with
  | none =>
    simp only [ite_self]
    simp only [QVariantMap.ite_insert_insert_other, QVariantMap.ite_insert_other,
      QVariantMap.insert_other, QVariantMap.insert_same, QVariantMap.ite_insert_same,
      QVariantMap.ite_insert_insert_first, QVariantMap.ite_insert_insert_second, ne_eq, hk,
      hr, not_false_eq_true]
  | some p =>
    obtain ⟨cap1, cap2⟩ := p
    simp only [QVariantMap.ite_insert_insert_other, QVariantMap.ite_insert_other,
      QVariantMap.insert_other, QVariantMap.insert_same, QVariantMap.ite_insert_same,
      QVariantMap.ite_insert_insert_first, QVariantMap.ite_insert_insert_second, ne_eq, hk,
      hr, not_false_eq_true]

/-- The value under the platform C++-flags key. -/
theorem properties_value_platformCxxFlags (h : Host) (c : Constants) (k : Kit) (tc : ToolChain)
    (base : QVariantMap) (hk : c.KeysDistinct) (htc : k.toolChain = some tc) :
    properties h c (some k) base c.CPP_PLATFORMCXXFLAGS =
      if tc.targetAbi.osFlavor = .WindowsMsvc2013Flavor then some (.string "/FS")
      else base c.CPP_PLATFORMCXXFLAGS := by
  have hr : c.keys.reverse.Nodup := List.nodup_reverse.mpr hk
  simp only [Constants.KeysDistinct, Constants.keys, List.nodup_cons, List.mem_cons,
    List.mem_singleton, not_or, List.not_mem_nil, not_false_eq_true, List.nodup_nil,
    and_true] at hk
  simp only [Constants.keys, List.reverse_cons, List.reverse_nil, List.nil_append,
    List.cons_append, List.nodup_cons, List.mem_cons, List.mem_singleton, not_or,
    List.not_mem_nil, not_false_eq_true, List.nodup_nil, and_true] at hr
  unfold properties
  simp only [htc]
  cases hx : xcodeSdkRegExp (h.dirName k.sysRoot) with
  | none =>
    simp only [ite_self]
    simp only [QVariantMap.ite_insert_insert_other, QVariantMap.ite_insert_other,
      QVariantMap.insert_other, QVariantMap.insert_same, QVariantMap.ite_insert_same,
      QVariantMap.ite_insert_insert_first, QVariantMap.ite_insert_insert_second, ne_eq, hk,
      hr, not_false_eq_true]
  | some p =>
    obtain ⟨cap1, cap2⟩ := p
    simp only [QVariantMap.ite_insert_insert_other, QVariantMap.ite_insert_other,
      QVariantMap.insert_other, QVariantMap.insert_same, QVariantMap.ite_insert_same,
      QVariantMap.ite_insert_insert_first, QVariantMap.ite_insert_insert_second, ne_eq, hk,
      hr, not_false_eq_true]

/-- A key that is none of the twelve property keys keeps the value of the base map. -/
theorem properties_value_other (h : Host) (c : Constants) (k : Option Kit)
    (base : QVariantMap) (key : String) (hkey : key ∉ c.keys) :
    properties h c k base key = base key := by
  simp only [Constants.keys, List.mem_cons, List.mem_singleton, not_or, List.not_mem_nil,
    not_false_eq_true, and_true] at hkey
  unfold properties
  cases k with
  | none => rfl
  | some k =>
    cases htc : k.toolChain with
    | none =>
      simp only [htc, QVariantMap.ite_insert_other, ne_eq, hkey, not_false_eq_true]
    | some tc =>
      simp only [htc]
      cases hx : xcodeSdkRegExp (h.dirName k.sysRoot) with
      | none =>
        simp only [ite_self]
        simp only [QVariantMap.ite_insert_insert_other, QVariantMap.ite_insert_other,
          QVariantMap.insert_other, ne_eq, hkey, not_false_eq_true]
      | some p =>
        obtain ⟨cap1, cap2⟩ := p
        simp only [QVariantMap.ite_insert_insert_other, QVariantMap.ite_insert_other,
          QVariantMap.insert_other, ne_eq, hkey, not_false_eq_true]

/-- The result for a kit without a toolchain. -/
theorem properties_some_no_toolchain (h : Host) (c : Constants) (k : Kit)
    (base : QVariantMap) (htc : k.toolChain = none) :
    properties h c (some k) base =
      if k.hasSysRoot then base.insert c.QBS_SYSROOT (.string k.sysRoot) else base := by
  simp [properties, htc]

/-- At every key, `properties` either writes a value that does not depend on the base
map or keeps what the base map has there. -/
theorem properties_key_frame (h : Host) (c : Constants) (k : Option Kit) (key : String)
    (hk : c.KeysDistinct) :
    ∃ r : Option QVariant, ∀ base : QVariantMap,
      properties h c k base key = match r with
        | some v => some v
        | none => base key := by
  cases k with
  | none => exact ⟨none, fun base => rfl⟩
  | some k =>
    cases htc : k.toolChain with
    | none =>
      by_cases hkey : key = c.QBS_SYSROOT
      · subst hkey
        by_cases hs : k.hasSysRoot = true
        · exact ⟨some (.string k.sysRoot), fun base => by
            simp [properties_some_no_toolchain h c k base htc, hs, QVariantMap.insert]⟩
        · exact ⟨none, fun base => by
            simp [properties_some_no_toolchain h c k base htc, hs]⟩
      · exact ⟨none, fun base => by
          rw [properties_some_no_toolchain h c k base htc,
            QVariantMap.ite_insert_other _ _ _ _ _ hkey]⟩
    | some tc =>
      by_cases hmem : key ∈ c.keys
      · simp only [Constants.keys, List.mem_cons, List.mem_singleton, List.not_mem_nil,
          or_false] at hmem
        rcases hmem with e | e | e | e | e | e | e | e | e | e | e | e <;> subst e
        · by_cases hc : k.hasSysRoot = true
          · exact ⟨some (.string k.sysRoot), fun base => by
              rw [properties_value_sysroot h c k tc base hk htc, if_pos hc]⟩
          · exact ⟨none, fun base => by
              rw [properties_value_sysroot h c k tc base hk htc, if_neg hc]⟩
        · by_cases hc : tc.targetAbi.architecture ≠ .UnknownArchitecture
          · exact ⟨some _, fun base => by
              rw [properties_value_architecture h c k tc base hk htc, if_pos hc]⟩
          · exact ⟨none, fun base => by
              rw [properties_value_architecture h c k tc base hk htc, if_neg hc]⟩
        · by_cases hc : targetOSList c tc.targetAbi k ≠ []
          · exact ⟨some _, fun base => by
              rw [properties_value_targetOS h c k tc base hk htc, if_pos hc]⟩
          · exact ⟨none, fun base => by
              rw [properties_value_targetOS h c k tc base hk htc, if_neg hc]⟩
        · by_cases hc : toolchainList tc ≠ []
          · exact ⟨some _, fun base => by
              rw [properties_value_toolchain h c k tc base hk htc, if_pos hc]⟩
          · exact ⟨none, fun base => by
              rw [properties_value_toolchain h c k tc base hk htc, if_neg hc]⟩
        · by_cases hc : tc.targetAbi.os = .MacOS
          · cases hx : xcodeSdkRegExp (h.dirName k.sysRoot) with
            | none => exact ⟨none, fun base => by
                rw [properties_value_xcodeSdkName h c k tc base hk htc, if_pos hc, hx]⟩
            | some p => exact ⟨some (.string (QString.toLower p.1 ++ p.2)), fun base => by
                rw [properties_value_xcodeSdkName h c k tc base hk htc, if_pos hc, hx]⟩
          · exact ⟨none, fun base => by
              rw [properties_value_xcodeSdkName h c k tc base hk htc, if_neg hc]⟩
        · by_cases hc : tc.targetAbi.os = .MacOS
          · cases hx : xcodeSdkRegExp (h.dirName k.sysRoot) with
            | none => exact ⟨none, fun base => by
                rw [properties_value_xcodeSdkVersion h c k tc base hk htc, if_pos hc, hx]⟩
            | some p => exact ⟨some (.string p.2), fun base => by
                rw [properties_value_xcodeSdkVersion h c k tc base hk htc, if_pos hc, hx]⟩
          · exact ⟨none, fun base => by
              rw [properties_value_xcodeSdkVersion h c k tc base hk htc, if_neg hc]⟩
        · by_cases hc : (extractToolchainPrefix (h.fileName tc.compilerCommand)).1 ≠ ""
          · exact ⟨some _, fun base => by
              rw [properties_value_toolchainPrefix h c k tc base hk htc, if_pos hc]⟩
          · exact ⟨none, fun base => by
              rw [properties_value_toolchainPrefix h c k tc base hk htc, if_neg hc]⟩
        · exact ⟨some _, fun base => by
            rw [properties_value_compilerName h c k tc base hk htc]⟩
        · by_cases hc : tc.targetAbi.os ≠ .WindowsOS ∨ tc.targetAbi.osFlavor = .WindowsMSysFlavor
          · exact ⟨some _, fun base => by
              rw [properties_value_linkerName h c k tc base hk htc, if_pos hc]⟩
          · exact ⟨none, fun base => by
              rw [properties_value_linkerName h c k tc base hk htc, if_neg hc]⟩
        · exact ⟨some _, fun base => by
            rw [properties_value_toolchainPath h c k tc base hk htc]⟩
        · by_cases hc : tc.targetAbi.osFlavor = .WindowsMsvc2013Flavor
          · exact ⟨some _, fun base => by
              rw [properties_value_platformCFlags h c k tc base hk htc, if_pos hc]⟩
          · exact ⟨none, fun base => by
              rw [properties_value_platformCFlags h c k tc base hk htc, if_neg hc]⟩
        · by_cases hc : tc.targetAbi.osFlavor = .WindowsMsvc2013Flavor
          · exact ⟨some _, fun base => by
              rw [properties_value_platformCxxFlags h c k tc base hk htc, if_pos hc]⟩
          · exact ⟨none, fun base => by
              rw [properties_value_platformCxxFlags h c k tc base hk htc, if_neg hc]⟩
      · exact ⟨none, fun base => properties_value_other h c (some k) base key hmem⟩

/-! ## Lemmas on the target-OS list -/

/-- The target-OS list is empty only for an OS family outside the five of the switch. -/
theorem targetOSList_eq_nil_iff (c : Constants) (abi : Abi) (k : Kit) :
    targetOSList c abi k = [] ↔ abi.os = .UnknownOS := by
  unfold targetOSList
  cases hos : abi.os <;> simp

/-! ## Theorems -/

/-- C1 (as the code has it): for a kit without a toolchain, `properties` returns the
base map when the kit declares no sysroot, and the base map with the kit's sysroot
stored under the sysroot key, nothing else changed, when it declares one. -/
theorem properties_no_toolchain (h : Host) (c : Constants) (k : Kit) (base : QVariantMap)
    (htc : k.toolChain = none) :
    properties h c (some k) base =
      if k.hasSysRoot then base.insert c.QBS_SYSROOT (.string k.sysRoot) else base := by
  simp [properties, htc]

/-- C1 at a kit without toolchain that declares the sysroot `/opt/sysroot`: the result
is the base map with that sysroot under the sysroot key. -/
theorem properties_no_toolchain_witness :
    kitNoToolchain.toolChain = none ∧
    properties qtcHost qtcConstants (some kitNoToolchain) QVariantMap.empty =
      QVariantMap.empty.insert "qbs.sysroot" (.string "/opt/sysroot") :=
  ⟨rfl, properties_no_toolchain qtcHost qtcConstants kitNoToolchain QVariantMap.empty rfl⟩

/-- C1 fails as stated: a kit without a toolchain that declares the sysroot
`/opt/sysroot` gets a result that differs from the (empty) base map, because the
sysroot key is written before the toolchain is looked at. -/
theorem properties_no_toolchain_not_identity :
    kitNoToolchain.toolChain = none ∧
    properties qtcHost qtcConstants (some kitNoToolchain) QVariantMap.empty
      qtcConstants.QBS_SYSROOT = some (.string "/opt/sysroot") ∧
    QVariantMap.empty qtcConstants.QBS_SYSROOT = none ∧
    properties qtcHost qtcConstants (some kitNoToolchain) QVariantMap.empty
      ≠ QVariantMap.empty := by
  refine ⟨rfl, by decide, rfl, fun hEq => ?_⟩
  have h1 := congrFun hEq "qbs.sysroot"
  revert h1
  decide

/-- C2: the architecture string `properties` hands to `canonicalArchitecture` is the
base name `Abi::toString` gives, followed by `_64` for x86 at word width 64, by `64` for
ARM, MIPS and PowerPC at word width 64, and by nothing otherwise; for a known
architecture the architecture key holds `canonicalArchitecture` of that string, and for
an unknown architecture the architecture key is not written. -/
theorem properties_architecture (h : Host) (c : Constants) (k : Kit) (tc : ToolChain)
    (base : QVariantMap) (hk : c.KeysDistinct) (htc : k.toolChain = some tc) :
    (architectureString h tc.targetAbi =
      if tc.targetAbi.architecture = .X86Architecture ∧ tc.targetAbi.wordWidth = 64 then
        h.toString tc.targetAbi.architecture ++ "_64"
      else if (tc.targetAbi.architecture = .ArmArchitecture
          ∨ tc.targetAbi.architecture = .MipsArchitecture
          ∨ tc.targetAbi.architecture = .PowerPCArchitecture)
          ∧ tc.targetAbi.wordWidth = 64 then
        h.toString tc.targetAbi.architecture ++ "64"
      else h.toString tc.targetAbi.architecture) ∧
    (tc.targetAbi.architecture ≠ .UnknownArchitecture →
      properties h c (some k) base c.QBS_ARCHITECTURE =
        some (.string (h.canonicalArchitecture (architectureString h tc.targetAbi)))) ∧
    (tc.targetAbi.architecture = .UnknownArchitecture →
      properties h c (some k) base c.QBS_ARCHITECTURE = base c.QBS_ARCHITECTURE) := by
  refine ⟨?_, fun hA => ?_, fun hA => ?_⟩
  · have e64 : QString.number 64 = "64" := by decide
    have eu : "_" ++ "64" = "_64" := by decide
    unfold architectureString
    by_cases hw : tc.targetAbi.wordWidth = 64
    · cases ha : tc.targetAbi.architecture <;> simp [hw, e64, String.append_assoc, eu]
    · simp [hw]
  · rw [properties_value_architecture h c k tc base hk htc, if_pos hA]
  · rw [properties_value_architecture h c k tc base hk htc, if_neg (not_not.mpr hA)]

/-- C2 at a 64-bit ARM Linux toolchain: the architecture key holds `arm64`. -/
theorem properties_architecture_witness :
    qtcConstants.KeysDistinct ∧ kitLinuxCross.toolChain = some tcGccArmLinux ∧
    properties qtcHost qtcConstants (some kitLinuxCross) QVariantMap.empty
      qtcConstants.QBS_ARCHITECTURE = some (.string "arm64") :=
  ⟨by decide, rfl,
    (properties_architecture qtcHost qtcConstants kitLinuxCross tcGccArmLinux
      QVariantMap.empty (by decide) rfl).2.1 (by decide)⟩

/-- C3: a file name that ends in `-g++` or `-clang++` is split after its last hyphen,
so the prefix is everything up to and including that hyphen and the name left is `g++`,
respectively `clang++`; `arm-linux-gnueabi-g++` gives `arm-linux-gnueabi-` and `g++`;
a file name with neither ending gets the empty prefix and is left unchanged. -/
theorem extractToolchainPrefix_split (t s : String) :
    extractToolchainPrefix (t ++ "-g++") = (t ++ "-", "g++") ∧
    extractToolchainPrefix (t ++ "-clang++") = (t ++ "-", "clang++") ∧
    extractToolchainPrefix "arm-linux-gnueabi-g++" = ("arm-linux-gnueabi-", "g++") ∧
    (QString.endsWith s "-g++" = false → QString.endsWith s "-clang++" = false →
      extractToolchainPrefix s = ("", s)) := by
  have e1 : t ++ "-g++" = t ++ "-" ++ String.mk "g++".data := by
    rw [String.append_assoc]; rfl
  have e2 : t ++ "-clang++" = t ++ "-" ++ String.mk "clang++".data := by
    rw [String.append_assoc]; rfl
  refine ⟨?_, ?_, by decide, extractToolchainPrefix_no_suffix s⟩
  · have hE : QString.endsWith (t ++ "-g++") "-g++" = true := by simp [QString.endsWith]
    have key := extractToolchainPrefix_at_hyphen t "g++".data (by decide) (by decide)
      (by rw [← e1, hE]; rfl)
    rw [← e1] at key
    exact key
  · have hE : QString.endsWith (t ++ "-clang++") "-clang++" = true := by
      simp [QString.endsWith]
    have key := extractToolchainPrefix_at_hyphen t "clang++".data (by decide) (by decide)
      (by rw [← e2, hE]; simp)
    rw [← e2] at key
    exact key

/-- C3 at the cross compiler `x86_64-w64-mingw32-clang++` and at the plain name
`clang++`, which ends in neither `-g++` nor `-clang++`. -/
theorem extractToolchainPrefix_split_witness :
    extractToolchainPrefix ("x86_64-w64-mingw32" ++ "-clang++")
      = ("x86_64-w64-mingw32" ++ "-", "clang++") ∧
    QString.endsWith "clang++" "-g++" = false ∧
    QString.endsWith "clang++" "-clang++" = false ∧
    extractToolchainPrefix "clang++" = ("", "clang++") :=
  ⟨(extractToolchainPrefix_split "x86_64-w64-mingw32" "clang++").2.1, by decide, by decide,
    (extractToolchainPrefix_split "x86_64-w64-mingw32" "clang++").2.2.2 (by decide)
      (by decide)⟩

/-- C4: for a macOS ABI and a kit whose device type is the iOS simulator type,
`targetOSList` is `ios-simulator, ios, darwin, bsd, unix`, and `properties` stores
that list under the target-OS key. -/
theorem targetOSList_ios_simulator (h : Host) (c : Constants) (k : Kit)
    (base : QVariantMap) (hd : c.DeviceTypesDistinct) (hk : c.KeysDistinct)
    (hdev : k.deviceTypeId = c.IOS_SIMULATOR_TYPE) :
    (∀ abi : Abi, abi.os = .MacOS →
      targetOSList c abi k = ["ios-simulator", "ios", "darwin", "bsd", "unix"]) ∧
    (∀ tc : ToolChain, k.toolChain = some tc → tc.targetAbi.os = .MacOS →
      properties h c (some k) base c.QBS_TARGETOS =
        some (.stringList ["ios-simulator", "ios", "darwin", "bsd", "unix"])) := by
  have hr : c.deviceTypes.reverse.Nodup := List.nodup_reverse.mpr hd
  simp only [Constants.deviceTypes, List.reverse_cons, List.reverse_nil, List.nil_append,
    List.cons_append, List.nodup_cons, List.mem_cons, List.mem_singleton, not_or,
    List.not_mem_nil, not_false_eq_true, List.nodup_nil, and_true] at hr
  have hlist : ∀ abi : Abi, abi.os = .MacOS →
      targetOSList c abi k = ["ios-simulator", "ios", "darwin", "bsd", "unix"] := by
    intro abi hos
    simp [targetOSList, hos, hdev, hr]
  refine ⟨hlist, fun tc htc hos => ?_⟩
  rw [properties_value_targetOS h c k tc base hk htc, hlist tc.targetAbi hos]
  simp

/-- C4 at the iOS simulator kit with a clang toolchain for macOS. -/
theorem targetOSList_ios_simulator_witness :
    qtcConstants.DeviceTypesDistinct ∧ qtcConstants.KeysDistinct ∧
    kitIosSimulator.deviceTypeId = qtcConstants.IOS_SIMULATOR_TYPE ∧
    properties qtcHost qtcConstants (some kitIosSimulator) QVariantMap.empty
      qtcConstants.QBS_TARGETOS =
        some (.stringList ["ios-simulator", "ios", "darwin", "bsd", "unix"]) :=
  ⟨by decide, by decide, rfl,
    (targetOSList_ios_simulator qtcHost qtcConstants kitIosSimulator QVariantMap.empty
      (by decide) (by decide) rfl).2 tcClangMac rfl rfl⟩

/-- C5: `toolchainList` is `clang, llvm, gcc` for the type `clang`, `gcc` for `gcc`,
`mingw, gcc` for `mingw`, `msvc` for `msvc` and empty for every other type; and
`properties` writes the toolchain key when and only when the list is not empty. -/
theorem toolchainList_table (h : Host) (c : Constants) (k : Kit) (tc : ToolChain)
    (base : QVariantMap) (hk : c.KeysDistinct) (htc : k.toolChain = some tc) :
    (tc.type = "clang" → toolchainList tc = ["clang", "llvm", "gcc"]) ∧
    (tc.type = "gcc" → toolchainList tc = ["gcc"]) ∧
    (tc.type = "mingw" → toolchainList tc = ["mingw", "gcc"]) ∧
    (tc.type = "msvc" → toolchainList tc = ["msvc"]) ∧
    (tc.type ≠ "clang" → tc.type ≠ "gcc" → tc.type ≠ "mingw" → tc.type ≠ "msvc" →
      toolchainList tc = []) ∧
    (toolchainList tc ≠ [] →
      properties h c (some k) base c.QBS_TOOLCHAIN = some (.stringList (toolchainList tc))) ∧
    (toolchainList tc = [] →
      properties h c (some k) base c.QBS_TOOLCHAIN = base c.QBS_TOOLCHAIN) := by
  refine ⟨fun e => ?_, fun e => ?_, fun e => ?_, fun e => ?_, fun e1 e2 e3 e4 => ?_,
    fun hne => ?_, fun hnil => ?_⟩
  · simp [toolchainList, e]
  · simp [toolchainList, e]
  · simp [toolchainList, e]
  · simp [toolchainList, e]
  · simp [toolchainList, e1, e2, e3, e4]
  · rw [properties_value_toolchain h c k tc base hk htc, if_pos hne]
  · rw [properties_value_toolchain h c k tc base hk htc, if_neg (not_not.mpr hnil)]

/-- C5 at the iOS simulator kit, whose toolchain has the type `clang`. -/
theorem toolchainList_table_witness :
    qtcConstants.KeysDistinct ∧ kitIosSimulator.toolChain = some tcClangMac ∧
    tcClangMac.type = "clang" ∧ toolchainList tcClangMac = ["clang", "llvm", "gcc"] ∧
    properties qtcHost qtcConstants (some kitIosSimulator) QVariantMap.empty
      qtcConstants.QBS_TOOLCHAIN = some (.stringList (toolchainList tcClangMac)) :=
  ⟨by decide, rfl, rfl,
    (toolchainList_table qtcHost qtcConstants kitIosSimulator tcClangMac QVariantMap.empty
      (by decide) rfl).1 rfl,
    (toolchainList_table qtcHost qtcConstants kitIosSimulator tcClangMac QVariantMap.empty
      (by decide) rfl).2.2.2.2.2.1 (by decide)⟩

/-- C6: for a Windows ABI, `targetOSList` is `winrt, windows` when the device type is
one of the three WinRT device types, whatever the flavor, and `windowsce, windows` when
the device type is none of them and the flavor is Windows CE. -/
theorem targetOSList_windows (c : Constants) (abi : Abi) (k : Kit)
    (hos : abi.os = .WindowsOS) :
    ((k.deviceTypeId = c.WINRT_DEVICE_TYPE_LOCAL ∨ k.deviceTypeId = c.WINRT_DEVICE_TYPE_PHONE
        ∨ k.deviceTypeId = c.WINRT_DEVICE_TYPE_EMULATOR) →
      targetOSList c abi k = ["winrt", "windows"]) ∧
    (¬ (k.deviceTypeId = c.WINRT_DEVICE_TYPE_LOCAL ∨ k.deviceTypeId = c.WINRT_DEVICE_TYPE_PHONE
        ∨ k.deviceTypeId = c.WINRT_DEVICE_TYPE_EMULATOR) →
      abi.osFlavor = .WindowsCEFlavor →
      targetOSList c abi k = ["windowsce", "windows"]) := by
  refine ⟨fun hdev => ?_, fun hdev hfl => ?_⟩
  · simp only [targetOSList, hos, if_pos hdev]
    rfl
  · simp only [targetOSList, hos, if_neg hdev, hfl]
    rfl

/-- C6 at a WinRT phone kit with an MSVC 2012 ABI. -/
theorem targetOSList_windows_witness :
    (⟨.ArmArchitecture, .WindowsOS, .WindowsMsvc2012Flavor, 32⟩ : Abi).os = .WindowsOS ∧
    targetOSList qtcConstants ⟨.ArmArchitecture, .WindowsOS, .WindowsMsvc2012Flavor, 32⟩
      ⟨"", false, none, "WinRt.Device.Phone"⟩ = ["winrt", "windows"] :=
  ⟨rfl, (targetOSList_windows qtcConstants
    ⟨.ArmArchitecture, .WindowsOS, .WindowsMsvc2012Flavor, 32⟩
    ⟨"", false, none, "WinRt.Device.Phone"⟩ rfl).1 (Or.inr (Or.inl rfl))⟩

/-- C7: whatever the device type, `targetOSList` is `android, linux, unix` for a Linux
ABI of the Android flavor and `freebsd`, `netbsd` or `openbsd` followed by `bsd, unix`
for a BSD ABI of that flavor; for a generic-Unix ABI it is `blackberry, qnx, unix` for
the BlackBerry device type, `qnx, unix` for the QNX device type, and `solaris, unix`
when the device type is neither and the flavor is Solaris. -/
theorem targetOSList_unix_families (c : Constants) (abi : Abi) (k : Kit)
    (hd : c.DeviceTypesDistinct) :
    (abi.os = .LinuxOS → abi.osFlavor = .AndroidLinuxFlavor →
      targetOSList c abi k = ["android", "linux", "unix"]) ∧
    (abi.os = .BsdOS → abi.osFlavor = .FreeBsdFlavor →
      targetOSList c abi k = ["freebsd", "bsd", "unix"]) ∧
    (abi.os = .BsdOS → abi.osFlavor = .NetBsdFlavor →
      targetOSList c abi k = ["netbsd", "bsd", "unix"]) ∧
    (abi.os = .BsdOS → abi.osFlavor = .OpenBsdFlavor →
      targetOSList c abi k = ["openbsd", "bsd", "unix"]) ∧
    (abi.os = .UnixOS → k.deviceTypeId = c.QNX_BB_OS_TYPE →
      targetOSList c abi k = ["blackberry", "qnx", "unix"]) ∧
    (abi.os = .UnixOS → k.deviceTypeId = c.QNX_QNX_OS_TYPE →
      targetOSList c abi k = ["qnx", "unix"]) ∧
    (abi.os = .UnixOS → k.deviceTypeId ≠ c.QNX_BB_OS_TYPE →
      k.deviceTypeId ≠ c.QNX_QNX_OS_TYPE → abi.osFlavor = .SolarisUnixFlavor →
      targetOSList c abi k = ["solaris", "unix"]) := by
  have hr : c.deviceTypes.reverse.Nodup := List.nodup_reverse.mpr hd
  simp only [Constants.deviceTypes, List.reverse_cons, List.reverse_nil, List.nil_append,
    List.cons_append, List.nodup_cons, List.mem_cons, List.mem_singleton, not_or,
    List.not_mem_nil, not_false_eq_true, List.nodup_nil, and_true] at hr
  refine ⟨fun hos hfl => ?_, fun hos hfl => ?_, fun hos hfl => ?_, fun hos hfl => ?_,
    fun hos hdev => ?_, fun hos hdev => ?_, fun hos hbb hqnx hfl => ?_⟩
  · simp [targetOSList, hos, hfl]
  · simp [targetOSList, hos, hfl]
  · simp [targetOSList, hos, hfl]
  · simp [targetOSList, hos, hfl]
  · simp [targetOSList, hos, hdev]
  · simp [targetOSList, hos, hdev, hr]
  · simp [targetOSList, hos, hbb, hqnx, hfl]

/-- C7 at a QNX kit with a generic-Unix ABI. -/
theorem targetOSList_unix_families_witness :
    qtcConstants.DeviceTypesDistinct ∧
    targetOSList qtcConstants ⟨.ArmArchitecture, .UnixOS, .GenericUnixFlavor, 32⟩
      ⟨"", false, none, "QnxOsType"⟩ = ["qnx", "unix"] :=
  ⟨by decide, (targetOSList_unix_families qtcConstants
    ⟨.ArmArchitecture, .UnixOS, .GenericUnixFlavor, 32⟩ ⟨"", false, none, "QnxOsType"⟩
    (by decide)).2.2.2.2.2.1 rfl rfl⟩

/-- C8 fails as stated: for a Windows ABI of the MSVC 2010 flavor (not Windows CE) and
the desktop device type (not a WinRT type), a combination the claim names as unmatched,
`targetOSList` is `windows`, not the empty list, and `properties` writes it under the
target-OS key. -/
theorem targetOSList_unmatched_not_empty :
    tcMsvc2010.targetAbi.os = .WindowsOS ∧
    tcMsvc2010.targetAbi.osFlavor ≠ .WindowsCEFlavor ∧
    ¬ (kitWindowsMsvc.deviceTypeId = qtcConstants.WINRT_DEVICE_TYPE_LOCAL
      ∨ kitWindowsMsvc.deviceTypeId = qtcConstants.WINRT_DEVICE_TYPE_PHONE
      ∨ kitWindowsMsvc.deviceTypeId = qtcConstants.WINRT_DEVICE_TYPE_EMULATOR) ∧
    targetOSList qtcConstants tcMsvc2010.targetAbi kitWindowsMsvc = ["windows"] ∧
    targetOSList qtcConstants tcMsvc2010.targetAbi kitWindowsMsvc ≠ [] ∧
    properties qtcHost qtcConstants (some kitWindowsMsvc) QVariantMap.empty
      qtcConstants.QBS_TARGETOS = some (.stringList ["windows"]) := by
  decide

/-- C8 (as the code has it): `targetOSList` is empty exactly for an OS family outside
the five of the table, and then `properties` does not write the target-OS key; a
combination within one of the five families that matches no specific row gets the
tags of the family alone (`windows`; `darwin, bsd, unix`; `linux, unix`; `bsd, unix`;
`unix`), and within the five families `properties` writes the list under the
target-OS key. -/
theorem targetOSList_unmatched (h : Host) (c : Constants) (k : Kit) (tc : ToolChain)
    (abi : Abi) (base : QVariantMap) (hk : c.KeysDistinct) (htc : k.toolChain = some tc) :
    (targetOSList c abi k = [] ↔ abi.os = .UnknownOS) ∧
    (tc.targetAbi.os = .UnknownOS →
      properties h c (some k) base c.QBS_TARGETOS = base c.QBS_TARGETOS) ∧
    (tc.targetAbi.os ≠ .UnknownOS →
      properties h c (some k) base c.QBS_TARGETOS =
        some (.stringList (targetOSList c tc.targetAbi k))) ∧
    (abi.os = .WindowsOS →
      ¬ (k.deviceTypeId = c.WINRT_DEVICE_TYPE_LOCAL ∨ k.deviceTypeId = c.WINRT_DEVICE_TYPE_PHONE
        ∨ k.deviceTypeId = c.WINRT_DEVICE_TYPE_EMULATOR) →
      abi.osFlavor ≠ .WindowsCEFlavor → targetOSList c abi k = ["windows"]) ∧
    (abi.os = .MacOS → k.deviceTypeId ≠ c.DESKTOP_DEVICE_TYPE →
      k.deviceTypeId ≠ c.IOS_DEVICE_TYPE → k.deviceTypeId ≠ c.IOS_SIMULATOR_TYPE →
      targetOSList c abi k = ["darwin", "bsd", "unix"]) ∧
    (abi.os = .LinuxOS → abi.osFlavor ≠ .AndroidLinuxFlavor →
      targetOSList c abi k = ["linux", "unix"]) ∧
    (abi.os = .BsdOS → abi.osFlavor ≠ .FreeBsdFlavor → abi.osFlavor ≠ .NetBsdFlavor →
      abi.osFlavor ≠ .OpenBsdFlavor → targetOSList c abi k = ["bsd", "unix"]) ∧
    (abi.os = .UnixOS → k.deviceTypeId ≠ c.QNX_BB_OS_TYPE →
      k.deviceTypeId ≠ c.QNX_QNX_OS_TYPE → abi.osFlavor ≠ .SolarisUnixFlavor →
      targetOSList c abi k = ["unix"]) := by
  refine ⟨targetOSList_eq_nil_iff c abi k, fun hos => ?_, fun hos => ?_,
    fun hos hdev hfl => ?_, fun hos h1 h2 h3 => ?_, fun hos hfl => ?_,
    fun hos h1 h2 h3 => ?_, fun hos h1 h2 hfl => ?_⟩
  · rw [properties_value_targetOS h c k tc base hk htc,
      if_neg (not_not.mpr ((targetOSList_eq_nil_iff c tc.targetAbi k).mpr hos))]
  · rw [properties_value_targetOS h c k tc base hk htc,
      if_pos (fun e => hos ((targetOSList_eq_nil_iff c tc.targetAbi k).mp e))]
  · simp only [targetOSList, hos, if_neg hdev, if_neg hfl]
    rfl
  · simp [targetOSList, hos, h1, h2, h3]
  · simp [targetOSList, hos, hfl]
  · cases hf : abi.osFlavor <;> simp_all [targetOSList]
  · simp [targetOSList, hos, h1, h2, hfl]

/-- C8 at the custom kit (unknown OS family, key not written) and at the Windows MSVC
kit (family tags alone). -/
theorem targetOSList_unmatched_witness :
    qtcConstants.KeysDistinct ∧ kitCustom.toolChain = some tcCustom ∧
    tcCustom.targetAbi.os = .UnknownOS ∧
    properties qtcHost qtcConstants (some kitCustom) QVariantMap.empty
      qtcConstants.QBS_TARGETOS = QVariantMap.empty qtcConstants.QBS_TARGETOS ∧
    targetOSList qtcConstants tcMsvc2010.targetAbi kitCustom = ["windows"] :=
  ⟨by decide, rfl, rfl,
    (targetOSList_unmatched qtcHost qtcConstants kitCustom tcCustom tcMsvc2010.targetAbi
      QVariantMap.empty (by decide) rfl).2.1 rfl,
    (targetOSList_unmatched qtcHost qtcConstants kitCustom tcCustom tcMsvc2010.targetAbi
      QVariantMap.empty (by decide) rfl).2.2.2.1 rfl (by decide) (by decide)⟩

/-- C9: for a kit with a toolchain that targets macOS, when the directory name of the
sysroot is a platform `P` out of `MacOSX`, `iPhoneOS`, `iPhoneSimulator`, then digits,
a dot, digits and `.sdk`, `properties` stores the lower-cased `P` followed by the
version under the Xcode SDK name key and the version under the Xcode SDK version key;
when the name has not that shape, or the target is not macOS, neither key is written. -/
theorem properties_xcodeSdk (h : Host) (c : Constants) (k : Kit) (tc : ToolChain)
    (base : QVariantMap) (hk : c.KeysDistinct) (htc : k.toolChain = some tc) :
    (∀ P major minor : String, tc.targetAbi.os = .MacOS →
      IsXcodeSdkName (h.dirName k.sysRoot) P major minor →
      properties h c (some k) base c.CPP_XCODESDKNAME =
        some (.string (QString.toLower P ++ major ++ "." ++ minor)) ∧
      properties h c (some k) base c.CPP_XCODESDKVERSION =
        some (.string (major ++ "." ++ minor))) ∧
    (tc.targetAbi.os ≠ .MacOS
        ∨ ¬ (∃ P major minor : String, IsXcodeSdkName (h.dirName k.sysRoot) P major minor) →
      properties h c (some k) base c.CPP_XCODESDKNAME = base c.CPP_XCODESDKNAME ∧
      properties h c (some k) base c.CPP_XCODESDKVERSION = base c.CPP_XCODESDKVERSION) ∧
    QString.toLower "MacOSX" = "macosx" ∧ QString.toLower "iPhoneOS" = "iphoneos" ∧
    QString.toLower "iPhoneSimulator" = "iphonesimulator" := by
  refine ⟨fun P major minor hos hs => ?_, fun hc => ?_, by decide, by decide, by decide⟩
  · have hx := xcodeSdkRegExp_of_shape _ P major minor hs
    rw [properties_value_xcodeSdkName h c k tc base hk htc,
      properties_value_xcodeSdkVersion h c k tc base hk htc, if_pos hos, if_pos hos]
    simp [hx, String.append_assoc]
  · rw [properties_value_xcodeSdkName h c k tc base hk htc,
      properties_value_xcodeSdkVersion h c k tc base hk htc]
    rcases hc with hos | hs
    · rw [if_neg hos, if_neg hos]
      exact ⟨rfl, rfl⟩
    · have hx := xcodeSdkRegExp_none_of_not_shape _ hs
      simp [hx]

/-- C9 at the macOS desktop kit with the sysroot `/Developer/SDKs/MacOSX10.9.sdk`: the
SDK name is `macosx10.9` and the SDK version is `10.9`. -/
theorem properties_xcodeSdk_witness :
    qtcConstants.KeysDistinct ∧ kitMacDesktop.toolChain = some tcClangMac ∧
    tcClangMac.targetAbi.os = .MacOS ∧
    IsXcodeSdkName (qtcHost.dirName kitMacDesktop.sysRoot) "MacOSX" "10" "9" ∧
    properties qtcHost qtcConstants (some kitMacDesktop) QVariantMap.empty
      qtcConstants.CPP_XCODESDKNAME = some (.string "macosx10.9") ∧
    properties qtcHost qtcConstants (some kitMacDesktop) QVariantMap.empty
      qtcConstants.CPP_XCODESDKVERSION = some (.string "10.9") :=
  ⟨by decide, rfl, rfl, by simp [IsXcodeSdkName]; decide,
    (properties_xcodeSdk qtcHost qtcConstants kitMacDesktop tcClangMac QVariantMap.empty
      (by decide) rfl).1 "MacOSX" "10" "9" rfl (by simp [IsXcodeSdkName]; decide)⟩

/-- C10: for a kit with a toolchain, `properties` writes the linker-name key when the
target OS is not Windows or the flavor is Windows MSys, and then its value is the one
under the compiler-name key, the compiler file name without its toolchain prefix;
otherwise the linker-name key is not written. -/
theorem properties_linkerName (h : Host) (c : Constants) (k : Kit) (tc : ToolChain)
    (base : QVariantMap) (hk : c.KeysDistinct) (htc : k.toolChain = some tc) :
    (properties h c (some k) base c.CPP_COMPILERNAME =
      some (.string (extractToolchainPrefix (h.fileName tc.compilerCommand)).2)) ∧
    (tc.targetAbi.os ≠ .WindowsOS ∨ tc.targetAbi.osFlavor = .WindowsMSysFlavor →
      properties h c (some k) base c.CPP_LINKERNAME =
        some (.string (extractToolchainPrefix (h.fileName tc.compilerCommand)).2) ∧
      properties h c (some k) base c.CPP_LINKERNAME =
        properties h c (some k) base c.CPP_COMPILERNAME) ∧
    (¬ (tc.targetAbi.os ≠ .WindowsOS ∨ tc.targetAbi.osFlavor = .WindowsMSysFlavor) →
      properties h c (some k) base c.CPP_LINKERNAME = base c.CPP_LINKERNAME) := by
  refine ⟨properties_value_compilerName h c k tc base hk htc, fun hc => ?_, fun hc => ?_⟩
  · rw [properties_value_linkerName h c k tc base hk htc, if_pos hc,
      properties_value_compilerName h c k tc base hk htc]
    exact ⟨rfl, rfl⟩
  · rw [properties_value_linkerName h c k tc base hk htc, if_neg hc]

/-- C10 at the Linux cross kit (linker name `g++`, as the compiler name) and at the
Windows MSVC kit (no linker name). -/
theorem properties_linkerName_witness :
    qtcConstants.KeysDistinct ∧ kitLinuxCross.toolChain = some tcGccArmLinux ∧
    properties qtcHost qtcConstants (some kitLinuxCross) QVariantMap.empty
      qtcConstants.CPP_LINKERNAME = some (.string "g++") ∧
    properties qtcHost qtcConstants (some kitWindowsMsvc) QVariantMap.empty
      qtcConstants.CPP_LINKERNAME = QVariantMap.empty qtcConstants.CPP_LINKERNAME :=
  ⟨by decide, rfl,
    ((properties_linkerName qtcHost qtcConstants kitLinuxCross tcGccArmLinux
      QVariantMap.empty (by decide) rfl).2.1 (by decide)).1,
    (properties_linkerName qtcHost qtcConstants kitWindowsMsvc tcMsvc2010
      QVariantMap.empty (by decide) rfl).2.2 (by decide)⟩

/-- C14: with a null kit `properties` returns the base map, whatever the host and
the constants are: nothing but the base map is read. -/
theorem properties_null_kit (h h' : Host) (c c' : Constants) (base : QVariantMap) :
    properties h c none base = base ∧
    properties h c none base = properties h' c' none base :=
  ⟨rfl, rfl⟩

/-- C16: for a kit with a toolchain, `properties` writes `/FS` under the platform
C-flags key and under the platform C++-flags key when the OS flavor is MSVC 2013, and
writes neither key for any other flavor. -/
theorem properties_platformFlags (h : Host) (c : Constants) (k : Kit) (tc : ToolChain)
    (base : QVariantMap) (hk : c.KeysDistinct) (htc : k.toolChain = some tc) :
    (tc.targetAbi.osFlavor = .WindowsMsvc2013Flavor →
      properties h c (some k) base c.CPP_PLATFORMCFLAGS = some (.string "/FS") ∧
      properties h c (some k) base c.CPP_PLATFORMCXXFLAGS = some (.string "/FS")) ∧
    (tc.targetAbi.osFlavor ≠ .WindowsMsvc2013Flavor →
      properties h c (some k) base c.CPP_PLATFORMCFLAGS = base c.CPP_PLATFORMCFLAGS ∧
      properties h c (some k) base c.CPP_PLATFORMCXXFLAGS = base c.CPP_PLATFORMCXXFLAGS) := by
  refine ⟨fun hf => ?_, fun hf => ?_⟩
  · rw [properties_value_platformCFlags h c k tc base hk htc,
      properties_value_platformCxxFlags h c k tc base hk htc, if_pos hf, if_pos hf]
    exact ⟨rfl, rfl⟩
  · rw [properties_value_platformCFlags h c k tc base hk htc,
      properties_value_platformCxxFlags h c k tc base hk htc, if_neg hf, if_neg hf]
    exact ⟨rfl, rfl⟩

/-- C16 at the MSVC 2013 kit (both keys hold `/FS`) and at the MSVC 2010 kit (the
C-flags key stays absent). -/
theorem properties_platformFlags_witness :
    qtcConstants.KeysDistinct ∧ kitWindowsMsvc2013.toolChain = some tcMsvc2013 ∧
    tcMsvc2013.targetAbi.osFlavor = .WindowsMsvc2013Flavor ∧
    properties qtcHost qtcConstants (some kitWindowsMsvc2013) QVariantMap.empty
      qtcConstants.CPP_PLATFORMCFLAGS = some (.string "/FS") ∧
    properties qtcHost qtcConstants (some kitWindowsMsvc2013) QVariantMap.empty
      qtcConstants.CPP_PLATFORMCXXFLAGS = some (.string "/FS") ∧
    properties qtcHost qtcConstants (some kitWindowsMsvc) QVariantMap.empty
      qtcConstants.CPP_PLATFORMCFLAGS = QVariantMap.empty qtcConstants.CPP_PLATFORMCFLAGS :=
  ⟨by decide, rfl, rfl,
    ((properties_platformFlags qtcHost qtcConstants kitWindowsMsvc2013 tcMsvc2013
      QVariantMap.empty (by decide) rfl).1 rfl).1,
    ((properties_platformFlags qtcHost qtcConstants kitWindowsMsvc2013 tcMsvc2013
      QVariantMap.empty (by decide) rfl).1 rfl).2,
    ((properties_platformFlags qtcHost qtcConstants kitWindowsMsvc tcMsvc2010
      QVariantMap.empty (by decide) rfl).2 (by decide)).1⟩

/-- C18: the result of `properties` extends the base map: a key that is none of the
twelve property keys keeps its value, no key of the base map gets lost, and at every
key either nothing is written (the value is the base map's, for every base map) or the
value written is the derived one, the same for every base map. -/
theorem properties_extends_base (h : Host) (c : Constants) (k : Option Kit)
    (base : QVariantMap) (hk : c.KeysDistinct) :
    (∀ key : String, key ∉ c.keys → properties h c k base key = base key) ∧
    (∀ key : String, base key ≠ none → properties h c k base key ≠ none) ∧
    (∀ (key : String) (base' : QVariantMap),
      (properties h c k base key = base key ∧ properties h c k base' key = base' key) ∨
      (properties h c k base key ≠ none ∧
        properties h c k base' key = properties h c k base key)) := by
  refine ⟨fun key hkey => properties_value_other h c k base key hkey, fun key hne => ?_,
    fun key base' => ?_⟩
  · obtain ⟨r, hr⟩ := properties_key_frame h c k key hk
    rw [hr base]
    cases r with
    | none => exact hne
    | some v => simp
  · obtain ⟨r, hr⟩ := properties_key_frame h c k key hk
    rw [hr base, hr base']
    cases r with
    | none => exact Or.inl ⟨rfl, rfl⟩
    | some v => exact Or.inr ⟨by simp, rfl⟩

/-- C18 at the Linux cross kit and a base map with the two keys `qbs.architecture` and
`qt.version`: the foreign key keeps its value, the architecture key takes the derived
value. -/
theorem properties_extends_base_witness :
    qtcConstants.KeysDistinct ∧
    properties qtcHost qtcConstants (some kitLinuxCross)
      ((QVariantMap.empty.insert "qbs.architecture" (.string "x86")).insert "qt.version"
        (.string "5.2")) "qt.version" = some (.string "5.2") ∧
    properties qtcHost qtcConstants (some kitLinuxCross)
      ((QVariantMap.empty.insert "qbs.architecture" (.string "x86")).insert "qt.version"
        (.string "5.2")) "qbs.architecture" = some (.string "arm64") :=
  ⟨by decide,
    (properties_extends_base qtcHost qtcConstants (some kitLinuxCross)
      ((QVariantMap.empty.insert "qbs.architecture" (.string "x86")).insert "qt.version"
        (.string "5.2")) (by decide)).1 "qt.version" (by decide),
    by decide⟩

/-- C19: `extractToolchainPrefix` splits every file name without loss: the prefix
followed by the name that is left is the file name; and a prefix that is not empty
ends with a hyphen, while the name that is left holds no hyphen. -/
theorem extractToolchainPrefix_lossless (s : String) :
    (extractToolchainPrefix s).1 ++ (extractToolchainPrefix s).2 = s ∧
    ((extractToolchainPrefix s).1 ≠ "" →
      (∃ t : String, (extractToolchainPrefix s).1 = t ++ "-") ∧
      '-' ∉ (extractToolchainPrefix s).2.data) := by
  by_cases h1 : QString.endsWith s "-g++" = true
  · obtain ⟨t, rfl⟩ := (QString.endsWith_iff _ _).mp h1
    rw [extractToolchainPrefix_gxx]
    refine ⟨?_, fun _ => ⟨⟨t, rfl⟩, by show '-' ∉ "g++".data; decide⟩⟩
    simp only [String.append_assoc]
    rfl
  · by_cases h2 : QString.endsWith s "-clang++" = true
    · obtain ⟨t, rfl⟩ := (QString.endsWith_iff _ _).mp h2
      rw [extractToolchainPrefix_clangxx]
      refine ⟨?_, fun _ => ⟨⟨t, rfl⟩, by show '-' ∉ "clang++".data; decide⟩⟩
      simp only [String.append_assoc]
      rfl
    · rw [extractToolchainPrefix_no_suffix s (by simpa using h1) (by simpa using h2)]
      exact ⟨by simp, fun hne => absurd rfl hne⟩

/-- C19 at the cross compiler `arm-linux-gnueabi-g++`: the prefix is not empty, ends
with a hyphen, and the two parts make up the file name. -/
theorem extractToolchainPrefix_lossless_witness :
    (extractToolchainPrefix "arm-linux-gnueabi-g++").1 ≠ "" ∧
    (extractToolchainPrefix "arm-linux-gnueabi-g++").1
      ++ (extractToolchainPrefix "arm-linux-gnueabi-g++").2 = "arm-linux-gnueabi-g++" ∧
    '-' ∉ (extractToolchainPrefix "arm-linux-gnueabi-g++").2.data :=
  ⟨by decide, (extractToolchainPrefix_lossless "arm-linux-gnueabi-g++").1,
    ((extractToolchainPrefix_lossless "arm-linux-gnueabi-g++").2 (by decide)).2⟩

/-- C20: `targetOSList` is not empty exactly for the OS families Windows, macOS,
Linux, BSD and generic Unix; it never holds a tag twice; its last tag is `windows` for
Windows and `unix` for the other four families; and for macOS it ends with
`darwin, bsd, unix`. -/
theorem targetOSList_shape (c : Constants) (abi : Abi) (k : Kit) :
    (targetOSList c abi k ≠ [] ↔
      (abi.os = .WindowsOS ∨ abi.os = .MacOS ∨ abi.os = .LinuxOS ∨ abi.os = .BsdOS
        ∨ abi.os = .UnixOS)) ∧
    (targetOSList c abi k).Nodup ∧
    (abi.os = .WindowsOS → (targetOSList c abi k).getLast? = some "windows") ∧
    (abi.os = .MacOS ∨ abi.os = .LinuxOS ∨ abi.os = .BsdOS ∨ abi.os = .UnixOS →
      (targetOSList c abi k).getLast? = some "unix") ∧
    (abi.os = .MacOS → ["darwin", "bsd", "unix"] <:+ targetOSList c abi k) := by
  refine ⟨?_, ?_, ?_, ?_, ?_⟩
  · rw [Ne, targetOSList_eq_nil_iff]
    cases abi.os <;> simp
  · unfold targetOSList
    cases abi.os <;> simp only [] <;> try (split_ifs <;> decide)
    · cases abi.osFlavor <;> decide
    · decide
  · intro hos
    unfold targetOSList
    simp only [hos]
    split_ifs <;> rfl
  · intro hos
    unfold targetOSList
    rcases hos with hos | hos | hos | hos <;> simp only [hos]
    · split_ifs <;> rfl
    · split_ifs <;> rfl
    · cases abi.osFlavor <;> rfl
    · split_ifs <;> rfl
  · intro hos
    unfold targetOSList
    simp only [hos]
    split_ifs
    · exact ⟨["osx"], rfl⟩
    · exact ⟨["ios"], rfl⟩
    · exact ⟨["ios-simulator", "ios"], rfl⟩
    · exact ⟨[], rfl⟩

/-- C20 at the iOS simulator kit with a macOS ABI. -/
theorem targetOSList_shape_witness :
    tcClangMac.targetAbi.os = .MacOS ∧
    (targetOSList qtcConstants tcClangMac.targetAbi kitIosSimulator).getLast? = some "unix" ∧
    ["darwin", "bsd", "unix"] <:+ targetOSList qtcConstants tcClangMac.targetAbi kitIosSimulator :=
  ⟨rfl,
    (targetOSList_shape qtcConstants tcClangMac.targetAbi kitIosSimulator).2.2.2.1
      (Or.inl rfl),
    (targetOSList_shape qtcConstants tcClangMac.targetAbi kitIosSimulator).2.2.2.2 rfl⟩

end QbsProjectManager

namespace QmlDesigner

namespace ImportsWidget

variable {Import : Type}

/-! ## Lemmas on the imports widget -/

/-- The loop of `updateLayout` appends one widget item per row view, in list order. -/
theorem foldl_addWidget (rows : List (ImportLabel Import))
    (items : List (LayoutItem Import)) :
    rows.foldl (fun l importLabel => l ++ [LayoutItem.widget importLabel]) items
      = items ++ rows.map LayoutItem.widget := by
  induction rows generalizing items with
  | nil => simp
  | cons x xs ih => simp [ih]

/-- The loop of `setImports` appends one initialised row view per record, in list
order, and leaves the layout alone. -/
theorem foldl_append_label (imports : List Import) (w : QmlDesigner.ImportsWidget Import) :
    imports.foldl (fun w record =>
      let importLabel : ImportLabel Import := newImportLabel
      let importLabel := importLabel.setImport record
      { w with m_importLabels := w.m_importLabels ++ [importLabel] }) w
      = ⟨w.m_importLabels ++ imports.map (fun record => newImportLabel.setImport record),
          w.layout⟩ := by
  induction imports generalizing w with
  | nil => simp
  | cons x xs ih => simp [ih]

/-- The state `updateLayout` leaves: the rows as they were, and a layout of the rows
followed by a stretch. -/
theorem updateLayout_eq (w : QmlDesigner.ImportsWidget Import) :
    updateLayout w
      = ⟨w.m_importLabels, some (w.m_importLabels.map LayoutItem.widget ++ [.stretch])⟩ := by
  simp [updateLayout, foldl_addWidget]

variable [DecidableEq Import]

/-- The state `setImports` leaves. -/
theorem setImports_eq (w : QmlDesigner.ImportsWidget Import) (imports : List Import) :
    setImports w imports
      = ⟨imports.map (fun record => newImportLabel.setImport record),
          some ((imports.map (fun record => newImportLabel.setImport record)).map
            LayoutItem.widget ++ [.stretch])⟩ := by
  simp [setImports, foldl_append_label, updateLayout_eq, clear]

/-- The state `removeAllImports` leaves. -/
theorem removeAllImports_eq (w : QmlDesigner.ImportsWidget Import) :
    removeAllImports w = ⟨[], some [.stretch]⟩ := by
  simp [removeAllImports, updateLayout_eq, clear]

/-! ## Theorems on the imports widget -/

/-- C11: after `setImports(L)` the widget has as many rows as `L` has records, the
i-th row is a newly constructed row view that was given the i-th record, the rows do
not depend on the state before the call, and `setImports([A, B, C])` followed by
`setImports([])` leaves no row. -/
theorem setImports_rows (w w' : QmlDesigner.ImportsWidget Import) (L : List Import)
    (A B C : Import) :
    (setImports w L).m_importLabels.length = L.length ∧
    (∀ i : Nat, (setImports w L).m_importLabels[i]?
      = (L[i]?).map (fun record => newImportLabel.setImport record)) ∧
    (setImports w L).m_importLabels = (setImports w' L).m_importLabels ∧
    (setImports (setImports w [A, B, C]) []).m_importLabels = [] := by
  refine ⟨?_, fun i => ?_, ?_, ?_⟩
  · simp [setImports_eq]
  · simp [setImports_eq]
  · simp [setImports_eq]
  · simp [setImports_eq]

/-- C12: after `setImports` and after `removeAllImports`, from any state, the widget
has a layout, and its items are the row views of the widget in list order followed by
one stretch, so it has one item more than there are rows and the stretch is last. -/
theorem layout_after_call (w : QmlDesigner.ImportsWidget Import) (L : List Import) :
    (setImports w L).layout
      = some ((setImports w L).m_importLabels.map LayoutItem.widget ++ [.stretch]) ∧
    (removeAllImports w).layout
      = some ((removeAllImports w).m_importLabels.map LayoutItem.widget ++ [.stretch]) ∧
    (∃ items : List (LayoutItem Import), (setImports w L).layout = some items ∧
      items.length = (setImports w L).m_importLabels.length + 1 ∧
      items.getLast? = some .stretch ∧ items.count .stretch = 1) ∧
    (∃ items : List (LayoutItem Import), (removeAllImports w).layout = some items ∧
      items.length = (removeAllImports w).m_importLabels.length + 1 ∧
      items.getLast? = some .stretch ∧ items.count .stretch = 1) := by
  have hcount : ∀ rows : List (ImportLabel Import),
      (rows.map LayoutItem.widget).count LayoutItem.stretch = 0 := by
    intro rows
    induction rows with
    | nil => rfl
    | cons x xs ih => simp [List.count_cons, ih]
  have hs := setImports_eq w L
  have hr := removeAllImports_eq w
  refine ⟨by simp [hs], by simp [hr],
    ⟨(L.map (fun record => newImportLabel.setImport record)).map LayoutItem.widget
      ++ [.stretch], by simp [hs], by simp [hs], by simp, ?_⟩,
    ⟨[.stretch], by simp [hr], by simp [hr], by simp, by simp⟩⟩
  rw [List.count_append, hcount]
  simp

/-- C13 fails as stated: on a newly constructed widget, which has no rows and no
layout, `removeAllImports` installs a layout that holds a stretch, so the state after
the call is not the state before it. -/
theorem removeAllImports_new_widget_changes :
    (newImportsWidget : QmlDesigner.ImportsWidget String).m_importLabels = [] ∧
    (newImportsWidget : QmlDesigner.ImportsWidget String).layout = none ∧
    (removeAllImports (newImportsWidget : QmlDesigner.ImportsWidget String)).layout
      = some [.stretch] ∧
    removeAllImports (newImportsWidget : QmlDesigner.ImportsWidget String)
      ≠ newImportsWidget := by
  decide

/-- C13 (as the code has it): on a widget without rows whose layout holds just the
stretch, as every earlier `removeAllImports` or `setImports([])` leaves it,
`removeAllImports` changes neither the rows nor the items of the layout; on a widget
without rows in any other state, such as a newly constructed one, it leaves no rows
and installs the layout that holds just the stretch. -/
theorem removeAllImports_empty (w : QmlDesigner.ImportsWidget Import)
    (hrows : w.m_importLabels = []) :
    (w.layout = some [.stretch] → removeAllImports w = w) ∧
    (removeAllImports w).m_importLabels = [] ∧
    (removeAllImports w).layout = some [.stretch] ∧
    removeAllImports (removeAllImports w) = removeAllImports w := by
  refine ⟨fun hl => ?_, by simp [removeAllImports_eq], by simp [removeAllImports_eq],
    by simp [removeAllImports_eq]⟩
  rw [removeAllImports_eq]
  cases w with
  | mk rows layout =>
    simp only at hrows hl
    rw [hrows, hl]

/-- C13 at the widget without rows whose layout holds just the stretch. -/
theorem removeAllImports_empty_witness :
    (⟨[], some [.stretch]⟩ : QmlDesigner.ImportsWidget String).m_importLabels = [] ∧
    removeAllImports (⟨[], some [.stretch]⟩ : QmlDesigner.ImportsWidget String)
      = ⟨[], some [.stretch]⟩ :=
  ⟨rfl, (removeAllImports_empty (⟨[], some [.stretch]⟩ : QmlDesigner.ImportsWidget String)
    rfl).1 rfl⟩

/-- C17: from every state, `removeAllImports` leaves no rows and a layout that holds
just the stretch, and the state it leaves is the one `setImports([])` leaves. -/
theorem removeAllImports_eq_setImports_nil (w : QmlDesigner.ImportsWidget Import) :
    (removeAllImports w).m_importLabels = [] ∧
    (removeAllImports w).layout = some [.stretch] ∧
    removeAllImports w = setImports w [] := by
  refine ⟨by simp [removeAllImports_eq], by simp [removeAllImports_eq], ?_⟩
  rw [removeAllImports_eq, setImports_eq]
  simp

end ImportsWidget

end QmlDesigner
